import Mathlib

/-!
Verification development for the dragon scripting-language core
(scanner / compiler / bytecode VM written in C).

The definitions below are a shallow embedding of the C sources:
  * `src/value.c`   — tagged values, `valuesEqual`, `listsEqual`
  * `src/table.c`   — open-addressed hash table (`findEntry`, `tableSet`,
                      `tableGet`, `tableDelete`, `tableFindString`,
                      `adjustCapacity`)
  * `src/object.c`  — string interning (`copyString`, `takeString`, FNV-1a)
  * `src/vm.c`      — the interpreter pieces under scrutiny: `call`
                      (varargs protocol), `throwGeneral` (exception
                      unwinding), `validateListIndex`, `OP_GET_INDEX`,
                      `OP_GET_PROPERTY`/`bindMethod`, `OP_SET_GLOBAL`,
                      `OP_RANGE`, the `BITWISE_BINARY_OP` macro and
                      `OP_RSH`.

Modelling conventions:
  * C `double` payloads of `Number` values are modelled by `ℚ`.  Every
    finite double is a rational; the claims under study only inspect
    whole-valued operands and small integers, so the NaN/∞ corners never
    arise in them.  `isInteger(v)` (`floor(v) == v` in C) becomes
    "denominator = 1".
  * Heap pointers are modelled by numeric object identities; C pointer
    equality `p == q` becomes equality of identities.
  * `size_t`/`uintmax_t` arithmetic is carried out in `Nat`/`Int` with
    an explicit `% 2 ^ 64` where the C code relies on wrap-around.
  * Fallible or possibly-diverging C routines return `Option`/`Except`:
    `none` marks a probe loop that would never terminate in C.
-/

namespace Dragon

/-- Interned string object (`ObjString` in `object.h`): identity of the
allocation, cached FNV-1a hash, and character payload.  C pointer
equality on `ObjString*` is modelled by equality of `id`. -/
structure StrObj where
  id : Nat
  hash : Nat
  chars : String
deriving DecidableEq, Repr

/-- Heap-object kinds other than strings and lists (the variants of
`ObjType` in `object.h` whose payload the claims never inspect). -/
inductive ObjKind where
  | function
  | closure
  | native
  | klass
  | inst
  | boundMethod
  | upvalue
deriving DecidableEq, Repr

/-- Runtime value (`Value` in `value.h`): a tagged sum of bool, null,
number and heap object.  Heap objects are split into strings (carrying
their interned `StrObj`), lists (identity plus the items array) and the
remaining kinds (identity only); all three have C tag `VAL_OBJ`. -/
inductive Value where
  | vbool (b : Bool)
  | vnull
  | vnumber (q : ℚ)
  | vstr (s : StrObj)
  | vlist (id : Nat) (items : List Value)
  | vobj (kind : ObjKind) (id : Nat)

/-- Tag of a value (the `type` field of the C `Value` struct);
`vstr`/`vlist`/`vobj` all carry tag `VAL_OBJ`. -/
inductive VTag where
  | tbool
  | tnull
  | tnumber
  | tobj
deriving DecidableEq, Repr

/-- Tag projection, mirroring `value.type` in C. -/
def Value.tag : Value → VTag
  | .vbool _ => .tbool
  | .vnull => .tnull
  | .vnumber _ => .tnumber
  | .vstr _ => .tobj
  | .vlist _ _ => .tobj
  | .vobj _ _ => .tobj

/-- Pointer identity of a heap object (`AS_OBJ(value)` viewed as an
address); meaningless (0) for non-object values, which never reach the
pointer comparison in `valuesEqual`. -/
def Value.objId : Value → Nat
  | .vstr s => s.id
  | .vlist i _ => i
  | .vobj _ i => i
  | _ => 0

/-- Truthiness (`isFalsey` in `value.c`): null and false are falsey. -/
def isFalsey : Value → Bool
  | .vnull => true
  | .vbool b => !b
  | _ => false

mutual

/-- Value equality, translated from `valuesEqual` in `value.c`:
different tags are unequal; bool/number compare payloads; null equals
null; for `VAL_OBJ` operands, two lists compare elementwise
(`listsEqual`) and every other pair compares by pointer identity. -/
def valuesEqual : Value → Value → Bool
  | .vbool a, .vbool b => a == b
  | .vnull, .vnull => true
  | .vnumber a, .vnumber b => a == b
  | .vlist _ xs, .vlist _ ys => listsEqual xs ys
  | a, b =>
    if a.tag == .tobj && b.tag == .tobj then a.objId == b.objId else false

/-- List equality, translated from `listsEqual` in `value.c`: equal
counts and elementwise `valuesEqual`. -/
def listsEqual : List Value → List Value → Bool
  | [], [] => true
  | x :: xs, y :: ys => valuesEqual x y && listsEqual xs ys
  | _, _ => false

end

/-- Whole-number test on the `ℚ` model of a double, translating
`isInteger` in `vm.c` (`floor(value) == value`). -/
def isIntegerQ (q : ℚ) : Bool := q.den == 1

/-- Language-level exception as observed by the claims: the class name
that `throwException` looks up in the module globals, and the formatted
message. -/
structure DgnError where
  klass : String
  msg : String
deriving DecidableEq, Repr

/-- TypeException "Operands must be numbers." -/
def errNotNumbers : DgnError := ⟨"TypeException", "Operands must be numbers."⟩

/-- TypeException "Operands must be integers." -/
def errNotIntegers : DgnError := ⟨"TypeException", "Operands must be integers."⟩

/-- Integer-only binary operator, translated from the
`BITWISE_BINARY_OP(op)` macro in `vm.c` (used by `OP_AND`, `OP_OR`,
`OP_XOR`, `OP_LSH`, `OP_ASH`).  `a` is the left operand (second from the
top of the stack), `b` the right operand (stack top).  The macro first
requires both operands to be numbers, then requires both to be
whole-valued, and finally pushes `(double)(aInt op bInt)` where `aInt`,
`bInt` are the `intmax_t` truncations; the concrete operator is a macro
parameter, modelled here by `op`.  No sign check is performed anywhere
in the macro. -/
def bitwiseBinaryOp (op : Int → Int → Int) (a b : Value) :
    Except DgnError Value :=
  match a, b with
  | .vnumber qa, .vnumber qb =>
    if !(isIntegerQ qa) || !(isIntegerQ qb) then .error errNotIntegers
    else .ok (.vnumber ((op qa.num qb.num : Int) : ℚ))
  | _, _ => .error errNotNumbers

/-- Unsigned right shift, translated from the `OP_RSH` case in `vm.c`.
The guard structure is the same as `BITWISE_BINARY_OP` (numbers, then
whole values); the pushed payload is
`(double)((uintmax_t)a >> (uintmax_t)b)`.  The conversion of a negative
or ≥ 2^64 double to `uintmax_t` is undefined behaviour in C, so the
computed payload is kept as a parameter `conv`; the exception behaviour
is decided before the conversion and is independent of it. -/
def opRsh (conv : Int → Int → Int) (a b : Value) : Except DgnError Value :=
  match a, b with
  | .vnumber qa, .vnumber qb =>
    if !(isIntegerQ qa) || !(isIntegerQ qb) then .error errNotIntegers
    else .ok (.vnumber ((conv qa.num qb.num : Int) : ℚ))
  | _, _ => .error errNotNumbers

/-- Host value of `(uintmax_t)a >> (uintmax_t)b` on the envelope where
the C conversions are defined (`0 ≤ a, b < 2 ^ 64`). -/
def rshDefined (a b : Int) : Int := ((a.toNat % 2 ^ 64) >>> (b.toNat % 2 ^ 64) : Nat)

/-- Host value of `aInt >> bInt` on `intmax_t` for a non-negative shift
amount: arithmetic (sign-propagating) right shift, i.e. flooring
division by `2 ^ b` — the behaviour of every target of this code base
(the C standard leaves a negative left operand implementation-defined). -/
def ashDefined (a b : Int) : Int := Int.fdiv a (2 ^ b.toNat)

/-- Index validation for list/string indexing, translated from
`validateListIndex` in `vm.c`.  A non-number index raises
`TypeException "Index must be a number."`; a non-whole number raises
`TypeException "Index must be an integer."`.  The whole value is
truncated to `intmax_t` (`i`); if negative, the `uintmax_t` slot becomes
`listLength - (-i)` computed modulo `2 ^ 64`; a resulting slot `≥ len`
raises `IndexException`. -/
def validateListIndex (len : Nat) (v : Value) : Except DgnError Nat :=
  match v with
  | .vnumber q =>
    if !(isIntegerQ q) then
      .error ⟨"TypeException", "Index must be an integer."⟩
    else
      let i : Int := q.num
      let index : Nat := (((if i < 0 then (len : Int) + i else i)) % (2 ^ 64 : Int)).toNat
      if index ≥ len then
        .error ⟨"IndexException",
          "Index " ++ toString i ++ " is out of bounds for length " ++ toString len ++ "."⟩
      else .ok index
  | _ => .error ⟨"TypeException", "Index must be a number."⟩

/-- List read of `OP_GET_INDEX` in `vm.c` (the `IS_LIST` branch): the
index is validated against the item count and the selected element is
pushed. -/
def opGetIndexList (items : List Value) (idxV : Value) : Except DgnError Value :=
  (validateListIndex items.length idxV).map fun i => items.getD i .vnull

/-- Ascending loop of `OP_RANGE` in `vm.c`:
`for (i = aInt; i <= bInt; i++) write i`. -/
def rangeUp (a b : Int) : List Int :=
  if a ≤ b then a :: rangeUp (a + 1) b else []
termination_by (b + 1 - a).toNat
decreasing_by omega

/-- Descending loop of `OP_RANGE` in `vm.c`:
`for (i = aInt; i >= bInt; i--) write i`. -/
def rangeDown (a b : Int) : List Int :=
  if a ≥ b then a :: rangeDown (a - 1) b else []
termination_by (a + 1 - b).toNat
decreasing_by omega

/-- Range constructor, translated from the `OP_RANGE` case in `vm.c`.
`startV` is the first operand (`a..b` pushes `a` then `b`; the VM pops
`endV` first).  Non-numbers raise `TypeException "Operands must be
numbers."`; non-whole numbers raise `TypeException "Operands must be
integers."`; otherwise an inclusive ascending list is built when
`bInt > aInt` and an inclusive descending list otherwise.  The fresh
list's allocation identity is irrelevant to the claims and fixed at 0. -/
def opRange (startV endV : Value) : Except DgnError Value :=
  match startV, endV with
  | .vnumber a, .vnumber b =>
    if !(isIntegerQ a) || !(isIntegerQ b) then .error errNotIntegers
    else
      let aInt : Int := a.num
      let bInt : Int := b.num
      if bInt > aInt then
        .ok (.vlist 0 ((rangeUp aInt bInt).map fun (i : Int) => Value.vnumber (i : ℚ)))
      else
        .ok (.vlist 0 ((rangeDown aInt bInt).map fun (i : Int) => Value.vnumber (i : ℚ)))
  | _, _ => .error errNotNumbers

/-- Function object fields used by the call protocol (`ObjFunction` in
`object.h`): declared arity (the vararg parameter included), the
`varargs` flag and the `is_lambda` flag. -/
structure FnObj where
  arity : Nat
  varargs : Bool
  isLambda : Bool
deriving DecidableEq, Repr

/-- Hard cap on call frames (`FRAMES_MAX` in `vm.h`). -/
def FRAMES_MAX : Nat := 1024

/-- Stack read at distance `d` from the top (`peek(vm, d)` in `vm.c`);
the stack is modelled head-first (head = top).  Reads below the stack
base are undefined behaviour in C and default to null here. -/
def stackPeek (stack : List Value) (d : Nat) : Value := stack.getD d .vnull

/-- Result of `call` in `vm.c`: either an exception was thrown, or a
frame was entered on a rearranged stack with
`frame->slots = stackTop - expected - 1` (recorded via `expected`). -/
inductive CallOutcome where
  | threw (e : DgnError)
  | entered (stack : List Value) (expected : Nat)

/-- Value of frame slot `j` of an entered frame: `frame->slots[j]`, i.e.
the element at distance `expected - j` from the top of the rearranged
stack.  Parameters of an `arity = n` function occupy slots `1..n`. -/
def CallOutcome.slotVal : CallOutcome → Nat → Option Value
  | .entered st exp, j => some (st.getD (exp - j) .vnull)
  | .threw _, _ => none

/-- Frame-cap check plus frame creation, the tail of `call` in `vm.c`
(the dynamic array growth has no observable effect on the stack). -/
def callFinish (frameCount : Nat) (stack : List Value) (expected : Nat) : CallOutcome :=
  if frameCount = FRAMES_MAX then
    .threw ⟨"StackOverflowException", "Stack overflow (Max frame: 1024)."⟩
  else .entered stack expected

/-- Call protocol for closures, translated from `call` in `vm.c`.
`stack` holds (top first) the `argCount` arguments above the callee.
In the varargs branch: `required = expected - 1`; fewer than `required`
arguments raise `ArityException` unless the function is a lambda, which
pads with nulls; then `varargCount = argCount - required` (`size_t`
subtraction, wrapping), the surplus-collection loop
`for (i = varargCount; i > required; i--) write(peek(i - 1))` runs, the
stack is shrunk by `varargCount - required` (again `size_t`, wrapping)
and the collected list is pushed.  In the plain branch a mismatched
count raises `ArityException` for non-lambdas and is padded/truncated
for lambdas. -/
def callClosure (f : FnObj) (argCount : Nat) (frameCount : Nat)
    (stack : List Value) : CallOutcome :=
  let expected := f.arity
  if f.varargs then
    let required := expected - 1
    if argCount < required && !f.isLambda then
      .threw ⟨"ArityException",
        "Expected " ++ toString required ++ " or more arguments but got " ++
          toString argCount⟩
    else
      let stack1 :=
        if argCount < required then
          List.replicate (required - argCount) Value.vnull ++ stack
        else stack
      let varargCount : Nat :=
        (((argCount : Int) - (required : Int)) % (2 ^ 64 : Int)).toNat
      let arr := (List.range (varargCount - required)).map
        fun t => stackPeek stack1 (varargCount - 1 - t)
      let popCount : Nat :=
        (((varargCount : Int) - (required : Int)) % (2 ^ 64 : Int)).toNat
      let stack2 := stack1.drop popCount
      callFinish frameCount (Value.vlist 0 arr :: stack2) expected
  else
    if argCount ≠ expected then
      if !f.isLambda then
        .threw ⟨"ArityException",
          "Expected " ++ toString expected ++ " arguments but got " ++
            toString argCount ++ "."⟩
      else if argCount > expected then
        callFinish frameCount (stack.drop (argCount - expected)) expected
      else
        callFinish frameCount
          (List.replicate (expected - argCount) Value.vnull ++ stack) expected
    else callFinish frameCount stack expected

/-- Call frame as seen by the unwinder (`CallFrame` in `vm.h`).
`fnId` models the `ObjFunction*` identity and `fnName` its optional
name; `line` is `getLine(&chunk.lines, ip - code - 1)` at unwind time (a
function of the frame's function and saved ip, carried directly);
`slots` is the frame base as an index from the bottom of the value
stack; `catchJump` is the catch-target ip saved by `OP_TRY_BEGIN`. -/
structure Frame where
  fnId : Nat
  fnName : Option String
  line : Nat
  slots : Nat
  isTry : Bool
  catchJump : Nat
  ip : Nat
deriving DecidableEq, Repr

/-- Stack-trace line, modelling the strings `makeStringf` builds in
`throwGeneral`: the `"%s: %s"` header, a `"[%d] in %s"` frame line
(name `none` prints `<script>`), and a `"[Previous * %zu]"` collapse
line. -/
inductive TraceEntry where
  | header (klass msg : String)
  | frameLine (line : Nat) (fnName : Option String)
  | previous (count : Nat)
deriving DecidableEq, Repr

/-- Trace-collection accumulator of `throwGeneral`: the lines written so
far plus the `prevLine`/`prevFunction`/`count`/`repeating` registers. -/
structure TraceAcc where
  entries : List TraceEntry
  prevLine : Nat
  prevFn : Option Nat
  count : Nat
  repeating : Bool
deriving DecidableEq, Repr

/-- Per-popped-frame trace step of `throwGeneral`'s unwind loop: a new
(function, line) pair flushes a pending `[Previous * N]` line and emits
a frame line; a repeated pair only bumps the repeat counter. -/
def traceStep (acc : TraceAcc) (f : Frame) : TraceAcc :=
  if f.line ≠ acc.prevLine ∨ acc.prevFn ≠ some f.fnId then
    let acc1 :=
      if acc.repeating then
        { acc with entries := acc.entries ++ [.previous acc.count],
                   repeating := false, count := 0 }
      else acc
    { acc1 with entries := acc1.entries ++ [.frameLine f.line f.fnName],
                prevFn := some f.fnId, prevLine := f.line }
  else { acc with repeating := true, count := acc.count + 1 }

/-- Unwind loop of `throwGeneral` in `vm.c` (frames head-first, stack
bottom-first).  While the current frame is not a try frame: pop the
propagating value, record the frame in the trace, drop the frame; if no
frames remain the exception is uncaught (`none`; the C code prints the
trace and reports a runtime error); otherwise truncate the stack to the
dropped frame's base, re-push the propagating value and continue.
Upvalue closing (`closeUpvalues(frame->slots)`) moves captured locals
off the truncated stack region and is not observed by this claim. -/
def unwindLoop (acc : TraceAcc) (stack : List Value) :
    List Frame → Option (List Frame × List Value × TraceAcc)
  | [] => none
  | f :: rest =>
    if f.isTry then some (f :: rest, stack, acc)
    else
      let result := stack.getLastD Value.vnull
      let stack1 := stack.dropLast
      let acc1 := traceStep acc f
      match rest with
      | [] => none
      | _ :: _ => unwindLoop acc1 (stack1.take f.slots ++ [result]) rest

/-- Post-state of a caught throw: the remaining frames (the try frame,
updated, on top), the value stack, and the trace list stored into the
throwee's `stackTrace` field by
`tableSet(&throwee->fields, stackTrace, list)`. -/
structure ThrowOutcome where
  frames : List Frame
  stack : List Value
  trace : List TraceEntry

/-- Exception unwinding, translated from `throwGeneral` in `vm.c`.
`throweeClass` is `throwee->klass->name` and `messageStr` the
already-stringified `message` field (`valueToString` failing there
aborts before any unwinding and is outside this claim).  The `"%s: %s"`
header seeds the trace; the loop pops non-try frames; on exit the try
frame contributes a final frame line, its `is_try` flag is cleared, its
ip is set to the saved catch target, and the collected trace becomes
the throwee's `stackTrace` field. -/
def throwGeneral (throweeClass messageStr : String) (frames : List Frame)
    (stack : List Value) : Option ThrowOutcome :=
  let acc0 : TraceAcc := ⟨[.header throweeClass messageStr], 0, none, 0, false⟩
  match unwindLoop acc0 stack frames with
  | none => none
  | some ([], _, _) => none
  | some (f :: rest, stack1, acc) =>
    some ⟨{ f with isTry := false, ip := f.catchJump } :: rest, stack1,
          acc.entries ++ [.frameLine f.line f.fnName]⟩

/-- Trace list computed by a caught throw, phrased over the popped
prefix `popped` and the try frame `t` directly: the header, the folded
per-frame steps, then the try frame's own line. -/
def collectTrace (throweeClass messageStr : String) (popped : List Frame)
    (t : Frame) : List TraceEntry :=
  let acc0 : TraceAcc := ⟨[.header throweeClass messageStr], 0, none, 0, false⟩
  (popped.foldl traceStep acc0).entries ++ [.frameLine t.line t.fnName]

/-- Cell of the open-addressed table (`Entry` in `table.h`).  A cell
with `key = none` and value null is fresh (never used); `key = none`
with value `true` is a tombstone left by `tableDelete`. -/
structure Entry where
  key : Option StrObj
  value : Value

/-- Null test on the stored value (`IS_NULL(entry->value)`). -/
def isNullV : Value → Bool
  | .vnull => true
  | _ => false

/-- Fresh (never used) cell: `key == NULL && IS_NULL(value)`. -/
def Entry.isFresh (e : Entry) : Bool :=
  e.key.isNone && isNullV e.value

/-- Open-addressed hash table (`Table` in `table.h`).  The `entries`
array carries the capacity as its length. -/
structure Table where
  count : Nat
  entries : List Entry

/-- Capacity of a table (`table->capacity`; always `entries.length`). -/
def Table.capacity (t : Table) : Nat := t.entries.length

/-- Probe loop of `findEntry` in `table.c`, with explicit fuel (the C
loop relies on the load-factor invariant for termination; exhausted fuel
models the diverging probe).  From `index`, wrapping with
`& (capacity - 1)`: a fresh cell returns the first recorded tombstone if
any, else itself; a tombstone is recorded and skipped; a cell whose key
is the probe key (pointer equality in C, identity equality here) is
returned. -/
def findEntryAux (entries : List Entry) (key : StrObj) :
    Nat → Nat → Option Nat → Option Nat
  | 0, _, _ => none
  | fuel + 1, index, tomb =>
    let e := entries.getD index ⟨none, .vnull⟩
    match e.key with
    | none =>
      if isNullV e.value then some (tomb.getD index)
      else
        findEntryAux entries key fuel ((index + 1) &&& (entries.length - 1))
          (tomb <|> some index)
    | some k =>
      if k = key then some index
      else findEntryAux entries key fuel ((index + 1) &&& (entries.length - 1)) tomb

/-- Probe entry point (`findEntry` in `table.c`): start at
`key->hash & (capacity - 1)`; the fuel is one full sweep of the array. -/
def findEntry (entries : List Entry) (key : StrObj) : Option Nat :=
  findEntryAux entries key entries.length (key.hash &&& (entries.length - 1)) none

/-- Capacity growth policy (`GROW_CAPACITY` in `memory.h`):
`capacity < 8 ? 8 : capacity * 2`. -/
def growCapacity (c : Nat) : Nat := if c < 8 then 8 else 2 * c

/-- Cell of `entries` at probe position `i` (out-of-range reads default
to a fresh cell; the probe positions stay in range). -/
def entryAt (entries : List Entry) (i : Nat) : Entry :=
  entries.getD i ⟨none, .vnull⟩

/-- Key `k` is stored in no cell of `entries`. -/
def keyAbsent (entries : List Entry) (k : StrObj) : Prop :=
  ∀ e ∈ entries, e.key ≠ some k

/-- Rehash into a fresh array, translated from `adjustCapacity` in
`table.c`: allocate `cap` fresh cells, reset `count` to 0, and re-insert
every keyed cell in index order, counting each. -/
def adjustCapacity (t : Table) (cap : Nat) : Option Table :=
  let start : Option (List Entry × Nat) := some (List.replicate cap ⟨none, .vnull⟩, 0)
  (t.entries.foldl
    (fun acc e =>
      match acc with
      | none => none
      | some (es, cnt) =>
        match e.key with
        | none => some (es, cnt)
        | some k =>
          match findEntryAux es k es.length (k.hash &&& (es.length - 1)) none with
          | none => none
          | some i => some (es.set i ⟨some k, e.value⟩, cnt + 1))
    start).map fun p => ⟨p.2, p.1⟩

/-- Insertion, translated from `tableSet` in `table.c`.  Growth triggers
when `count + 1 > capacity * 0.75`; with the power-of-two capacities the
code maintains, that double comparison is exactly
`4 * (count + 1) > 3 * capacity`.  The found cell is overwritten with the
binding; `count` is incremented once if the cell was a new key
(`key == NULL`) **and once more** if it was also fresh
(`IS_NULL(value)`) — the two consecutive `if`s of the C code.  Returns
the table and `isNewKey`. -/
def tableSet (t : Table) (k : StrObj) (v : Value) : Option (Table × Bool) := do
  let t ← if 4 * (t.count + 1) > 3 * t.capacity then
            adjustCapacity t (growCapacity t.capacity)
          else some t
  let i ← findEntry t.entries k
  let e := t.entries.getD i ⟨none, .vnull⟩
  let isNewKey := e.key.isNone
  let cnt1 := if isNewKey && isNullV e.value then t.count + 1 else t.count
  let cnt2 := if isNewKey then cnt1 + 1 else cnt1
  some (⟨cnt2, t.entries.set i ⟨some k, v⟩⟩, isNewKey)

/-- Lookup, translated from `tableGet` in `table.c`.  `some none` means
"absent", `some (some v)` means "bound to `v`"; `none` is the diverging
probe. -/
def tableGet (t : Table) (k : StrObj) : Option (Option Value) :=
  if t.count = 0 then some none
  else
    match findEntry t.entries k with
    | none => none
    | some i =>
      let e := t.entries.getD i ⟨none, .vnull⟩
      match e.key with
      | none => some none
      | some _ => some (some e.value)

/-- Deletion, translated from `tableDelete` in `table.c`: find the cell;
an unkeyed cell is a miss; otherwise place a tombstone
(`key = NULL, value = true`).  `count` is not touched. -/
def tableDelete (t : Table) (k : StrObj) : Option (Table × Bool) :=
  if t.count = 0 then some (t, false)
  else
    match findEntry t.entries k with
    | none => none
    | some i =>
      let e := t.entries.getD i ⟨none, .vnull⟩
      match e.key with
      | none => some (t, false)
      | some _ => some (⟨t.count, t.entries.set i ⟨none, .vbool true⟩⟩, true)

/-- Content probe of the intern table, translated from `tableFindString`
in `table.c`: same probe sequence, but a keyed cell matches by length,
cached hash and byte contents (`memcmp`), and a fresh cell ends the scan
with "absent" while tombstones are skipped. -/
def tableFindStringAux (entries : List Entry) (chars : String) (hash : Nat) :
    Nat → Nat → Option (Option StrObj)
  | 0, _ => none
  | fuel + 1, index =>
    let e := entries.getD index ⟨none, .vnull⟩
    match e.key with
    | none =>
      if isNullV e.value then some none
      else tableFindStringAux entries chars hash fuel
        ((index + 1) &&& (entries.length - 1))
    | some k =>
      if k.chars.length = chars.length ∧ k.hash = hash ∧ k.chars = chars then
        some (some k)
      else tableFindStringAux entries chars hash fuel
        ((index + 1) &&& (entries.length - 1))

/-- Entry point of `tableFindString`: an empty count short-circuits to
"absent"; otherwise probe from `hash & (capacity - 1)`. -/
def tableFindString (t : Table) (chars : String) (hash : Nat) :
    Option (Option StrObj) :=
  if t.count = 0 then some none
  else tableFindStringAux t.entries chars hash t.entries.length
    (hash &&& (t.entries.length - 1))

/-- FNV-1a hash, translated from `hashString` in `object.c`
(32-bit `uint32_t` arithmetic; characters read as bytes — the sources
are ASCII). -/
def fnv1a (s : String) : Nat :=
  s.data.foldl (fun h c => ((h ^^^ c.toNat) * 16777619) % 2 ^ 32) 2166136261

/-- Interning state: the VM's `strings` table plus an allocation counter
providing fresh object identities. -/
structure InternState where
  nextId : Nat
  strings : Table

/-- String creation, translated from `copyString` in `object.c`: hash
the bytes; if `tableFindString` finds an interned copy return it
unchanged, otherwise allocate a fresh `ObjString` (here: a fresh
identity) and register it in the intern table with a null value
(`allocateString`). -/
def copyString (st : InternState) (chars : String) :
    Option (StrObj × InternState) := do
  let hash := fnv1a chars
  match ← tableFindString st.strings chars hash with
  | some interned => some (interned, st)
  | none =>
    let s : StrObj := ⟨st.nextId, hash, chars⟩
    let (tbl, _) ← tableSet st.strings s .vnull
    some (s, ⟨st.nextId + 1, tbl⟩)

/-- String adoption, translated from `takeString` in `object.c`: the
same intern-or-allocate logic as `copyString` (the two differ only in
the ownership of the C character buffer). -/
def takeString (st : InternState) (chars : String) :
    Option (StrObj × InternState) := do
  let hash := fnv1a chars
  match ← tableFindString st.strings chars hash with
  | some interned => some (interned, st)
  | none =>
    let s : StrObj := ⟨st.nextId, hash, chars⟩
    let (tbl, _) ← tableSet st.strings s .vnull
    some (s, ⟨st.nextId + 1, tbl⟩)

/-- Result of `OP_SET_GLOBAL`: the globals table after the opcode and
the raised exception, if any. -/
structure SetGlobalResult where
  globals : Table
  error : Option DgnError

/-- Global assignment, translated from the `OP_SET_GLOBAL` case in
`vm.c`: `tableSet` into the current closure's owner module's globals;
if it reports a new key, the tentative binding is removed with
`tableDelete` and `UndefinedVariableException` is raised. -/
def opSetGlobal (globals : Table) (name : StrObj) (v : Value) :
    Option SetGlobalResult := do
  let (t1, isNew) ← tableSet globals name v
  if isNew then
    let (t2, _) ← tableDelete t1 name
    some ⟨t2, some ⟨"UndefinedVariableException",
      "Undefined variable " ++ name.chars ++ "."⟩⟩
  else
    some ⟨t1, none⟩

/-- Module-level view of `OP_SET_GLOBAL`: the opcode resolves
`CURRENT_MODULE()` to the current closure's owner module and touches
only that module's globals table. -/
def opSetGlobalVM (modules : List Table) (cur : Nat) (name : StrObj)
    (v : Value) : Option (List Table × Option DgnError) := do
  let r ← opSetGlobal (modules.getD cur ⟨0, []⟩) name v
  some (modules.set cur r.globals, r.error)

/-- Instance read of `OP_GET_INDEX` in `vm.c` (the `IS_INSTANCE`
branch): a non-string key raises `TypeException`; an absent key pushes
null; a present key pushes the field value. -/
def opGetIndexInstance (fields : Table) (idxV : Value) :
    Option (Except DgnError Value) :=
  match idxV with
  | .vstr k =>
    match tableGet fields k with
    | none => none
    | some none => some (.ok .vnull)
    | some (some v) => some (.ok v)
  | _ => some (.error ⟨"TypeException", "Field name must be a string."⟩)

/-- Observable result of `OP_GET_PROPERTY` on an instance: a field value
pushed as-is, or a method value to be wrapped by `bindMethod` (a
`BoundMethod` for closures, a receiver-bound native otherwise). -/
inductive GetPropResult where
  | fieldValue (v : Value)
  | method (m : Value)

/-- Property access on an instance, translated from the `OP_GET_PROPERTY`
case plus `bindMethod` in `vm.c`: the field table is consulted first;
on a miss, `bindMethod` consults the class method table (inherited
methods were copied in by `OP_INHERIT`) and raises a
`PropertyException` whose C format string is Undefined property
percent-s (the quoted name) when that also misses. -/
def opGetProperty (fields methods : Table) (name : StrObj) :
    Option (Except DgnError GetPropResult) :=
  match tableGet fields name with
  | none => none
  | some (some v) => some (.ok (.fieldValue v))
  | some none =>
    match tableGet methods name with
    | none => none
    | some (some m) => some (.ok (.method m))
    | some none => some (.error ⟨"PropertyException",
        "Undefined property " ++ name.chars ++ "."⟩)

/-! ## Theorems -/

theorem valuesEqual_of_tag_ne (a b : Value) (h : a.tag ≠ b.tag) :
    valuesEqual a b = false := by
  cases a <;> cases b <;> first | exact absurd rfl h | rfl

theorem listsEqual_iff (xs : List Value) : ∀ ys : List Value,
    listsEqual xs ys = true ↔
      (xs.length = ys.length ∧
        ∀ n, n < xs.length →
          valuesEqual (xs.getD n .vnull) (ys.getD n .vnull) = true) := by
  induction xs with
  | nil =>
    intro ys
    cases ys with
    | nil => simp [listsEqual]
    | cons y ys => simp [listsEqual]
  | cons x xs ih =>
    intro ys
    cases ys with
    | nil => simp [listsEqual]
    | cons y ys =>
      rw [listsEqual]
      simp only [Bool.and_eq_true, ih ys, List.length_cons]
      constructor
      · rintro ⟨h1, h2, h3⟩
        refine ⟨by omega, ?_⟩
        intro n hn
        cases n with
        | zero => simpa using h1
        | succ m => simpa using h3 m (by omega)
      · rintro ⟨h1, h2⟩
        refine ⟨by simpa using h2 0 (by omega), by omega, ?_⟩
        intro m hm
        simpa using h2 (m + 1) (by omega)

/-- C6.  `valuesEqual` returns false for operands of different tag;
bools and numbers compare by payload and null equals null; two lists are
equal iff they have the same length and are elementwise `valuesEqual`;
every other pair of heap objects compares by object identity (C pointer
equality), in particular the non-string non-list heap kinds and
interned strings. -/
theorem spec_c6_values_equal :
    (∀ a b : Value, a.tag ≠ b.tag → valuesEqual a b = false)
    ∧ (∀ x y : Bool, valuesEqual (.vbool x) (.vbool y) = (x == y))
    ∧ (∀ p q : ℚ, valuesEqual (.vnumber p) (.vnumber q) = (p == q))
    ∧ valuesEqual .vnull .vnull = true
    ∧ (∀ (i j : Nat) (xs ys : List Value),
        valuesEqual (.vlist i xs) (.vlist j ys) = true ↔
          (xs.length = ys.length ∧
            ∀ n, n < xs.length →
              valuesEqual (xs.getD n .vnull) (ys.getD n .vnull) = true))
    ∧ (∀ (k1 : ObjKind) (i1 : Nat) (k2 : ObjKind) (i2 : Nat),
        valuesEqual (.vobj k1 i1) (.vobj k2 i2) = (i1 == i2))
    ∧ (∀ s1 s2 : StrObj, valuesEqual (.vstr s1) (.vstr s2) = (s1.id == s2.id)) :=
  ⟨valuesEqual_of_tag_ne, fun _ _ => rfl, fun _ _ => rfl, rfl,
   fun _ _ xs ys => by rw [valuesEqual]; exact listsEqual_iff xs ys,
   fun _ _ _ _ => rfl, fun _ _ => rfl⟩

/-- C6 witness: the different-tag component applied at a concrete pair. -/
theorem spec_c6_values_equal_witness :
    (Value.vbool true).tag ≠ Value.vnull.tag ∧
      valuesEqual (.vbool true) .vnull = false :=
  ⟨by decide, spec_c6_values_equal.1 (.vbool true) .vnull (by decide)⟩

theorem rangeUp_eq (a b : Int) :
    rangeUp a b = (List.range (b + 1 - a).toNat).map (fun (n : ℕ) => a + (n : Int)) := by
  induction a, b using rangeUp.induct with
  | case1 a b h ih =>
    rw [rangeUp, if_pos h, ih]
    have hn : (b + 1 - a).toNat = (b + 1 - (a + 1)).toNat + 1 := by omega
    rw [hn, List.range_succ_eq_map, List.map_cons, List.map_map]
    congr 1
    · simp
    · exact List.map_congr_left fun n _ => by simp [Function.comp]; omega
  | case2 a b h =>
    rw [rangeUp, if_neg h]
    have hn : (b + 1 - a).toNat = 0 := by omega
    simp [hn]

theorem rangeDown_eq (a b : Int) :
    rangeDown a b = (List.range (a + 1 - b).toNat).map (fun (n : ℕ) => a - (n : Int)) := by
  induction a, b using rangeDown.induct with
  | case1 a b h ih =>
    rw [rangeDown, if_pos h, ih]
    have hn : (a + 1 - b).toNat = ((a - 1) + 1 - b).toNat + 1 := by omega
    rw [hn, List.range_succ_eq_map, List.map_cons, List.map_map]
    congr 1
    · simp
    · exact List.map_congr_left fun n _ => by
        simp [Function.comp]
        ring
  | case2 a b h =>
    rw [rangeDown, if_neg h]
    have hn : (a + 1 - b).toNat = 0 := by omega
    simp [hn]

theorem opRange_int (a b : Int) :
    opRange (.vnumber (a : ℚ)) (.vnumber (b : ℚ)) =
      .ok (.vlist 0 ((if b > a then rangeUp a b else rangeDown a b).map
        fun (i : Int) => Value.vnumber (i : ℚ))) := by
  simp only [opRange, isIntegerQ, Rat.den_intCast, Rat.num_intCast]
  norm_num
  split_ifs <;> rfl

theorem rangeUp_1_5 : rangeUp 1 5 = [1, 2, 3, 4, 5] := by
  rw [rangeUp_eq]; decide

theorem rangeDown_3_1 : rangeDown 3 1 = [3, 2, 1] := by
  rw [rangeDown_eq]; decide

/-- C9.  For whole-valued operands `a..b` builds the inclusive ascending
integer list when `b > a` and the inclusive descending list otherwise
(`1..5` gives `[1, 2, 3, 4, 5]`, `3..1` gives `[3, 2, 1]`); a non-number
operand raises TypeException "Operands must be numbers." and a
non-whole number raises TypeException "Operands must be integers.". -/
theorem spec_c9_range :
    (∀ a b : Int,
      opRange (.vnumber (a : ℚ)) (.vnumber (b : ℚ)) =
        .ok (.vlist 0
          ((if b > a then
              (List.range (b + 1 - a).toNat).map fun (n : ℕ) => a + (n : Int)
            else
              (List.range (a + 1 - b).toNat).map fun (n : ℕ) => a - (n : Int)).map
            fun (i : Int) => Value.vnumber (i : ℚ))))
    ∧ opRange (.vnumber ((1 : Int) : ℚ)) (.vnumber ((5 : Int) : ℚ)) =
        .ok (.vlist 0 (([1, 2, 3, 4, 5] : List Int).map fun (i : Int) => Value.vnumber (i : ℚ)))
    ∧ opRange (.vnumber ((3 : Int) : ℚ)) (.vnumber ((1 : Int) : ℚ)) =
        .ok (.vlist 0 (([3, 2, 1] : List Int).map fun (i : Int) => Value.vnumber (i : ℚ)))
    ∧ (∀ v w : Value, v.tag ≠ .tnumber ∨ w.tag ≠ .tnumber →
        opRange v w = .error ⟨"TypeException", "Operands must be numbers."⟩)
    ∧ (∀ p q : ℚ, isIntegerQ p = false ∨ isIntegerQ q = false →
        opRange (.vnumber p) (.vnumber q) =
          .error ⟨"TypeException", "Operands must be integers."⟩) := by
  refine ⟨?_, ?_, ?_, ?_, ?_⟩
  · intro a b
    rw [opRange_int]
    split_ifs with h
    · rw [rangeUp_eq]
    · rw [rangeDown_eq]
  · rw [opRange_int, if_pos (by norm_num), rangeUp_1_5]
  · rw [opRange_int, if_neg (by norm_num), rangeDown_3_1]
  · intro v w h
    show opRange v w = .error errNotNumbers
    cases v <;> cases w <;>
      first
        | rfl
        | exact absurd (Or.elim h (fun h1 => absurd rfl h1) fun h2 => absurd rfl h2) not_false
  · intro p q h
    show opRange (.vnumber p) (.vnumber q) = .error errNotIntegers
    rw [opRange]
    rcases h with h | h <;> simp [h]

/-- C9 witness: the universal components applied at concrete inputs. -/
theorem spec_c9_range_witness :
    opRange (.vnumber ((2 : Int) : ℚ)) (.vnumber ((2 : Int) : ℚ)) =
      .ok (.vlist 0 ([Value.vnumber ((2 : Int) : ℚ)]))
    ∧ opRange .vnull (.vnumber ((1 : Int) : ℚ)) =
        .error ⟨"TypeException", "Operands must be numbers."⟩
    ∧ opRange (.vnumber (1 / 2 : ℚ)) (.vnumber ((1 : Int) : ℚ)) =
        .error ⟨"TypeException", "Operands must be integers."⟩ := by
  refine ⟨?_, ?_, ?_⟩
  · have h := spec_c9_range.1 2 2
    rw [h]
    have h1 : List.range 1 = [0] := rfl
    norm_num [h1, Function.comp]
  · exact spec_c9_range.2.2.2.1 .vnull (.vnumber ((1 : Int) : ℚ)) (by simp [Value.tag])
  · exact spec_c9_range.2.2.2.2 (1 / 2 : ℚ) ((1 : Int) : ℚ)
      (Or.inl (by norm_num [isIntegerQ]))

/-- C5.  On the range of indices where the C double-to-`intmax_t` cast
is defined (± 2 ^ 62 comfortably covers every exactly-representable
whole double a real list length could meet), `validateListIndex`
accepts exactly the whole indices in `[-len, len)`: a negative in-range
index selects slot `i + len` and a non-negative one slot `i`;
out-of-range whole indices raise `IndexException`; non-whole numbers and
non-numbers raise `TypeException`; and `OP_GET_INDEX` on a list returns
the selected element. -/
theorem spec_c5_list_index :
    (∀ (len : Nat) (i : Int), len ≤ 2 ^ 62 → -(2 ^ 62) ≤ i → i ≤ 2 ^ 62 →
      ((-(len : Int) ≤ i ∧ i < len →
          validateListIndex len (.vnumber (i : ℚ)) =
            .ok (if i < 0 then (i + len).toNat else i.toNat))
        ∧ (i < -(len : Int) ∨ (len : Int) ≤ i →
            ∃ e, validateListIndex len (.vnumber (i : ℚ)) = .error e ∧
              e.klass = "IndexException")))
    ∧ (∀ (len : Nat) (q : ℚ), isIntegerQ q = false →
        validateListIndex len (.vnumber q) =
          .error ⟨"TypeException", "Index must be an integer."⟩)
    ∧ (∀ (len : Nat) (v : Value), v.tag ≠ .tnumber →
        validateListIndex len v =
          .error ⟨"TypeException", "Index must be a number."⟩)
    ∧ (∀ (L : List Value) (i : Int), L.length ≤ 2 ^ 62 →
        -(2 ^ 62) ≤ i → i ≤ 2 ^ 62 → -(L.length : Int) ≤ i → i < L.length →
        opGetIndexList L (.vnumber (i : ℚ)) =
          .ok (L.getD (if i < 0 then (i + L.length).toNat else i.toNat) .vnull)) := by
  have heq : ∀ (len : Nat) (i : Int),
      validateListIndex len (.vnumber (i : ℚ)) =
        (if ((if i < 0 then (len : Int) + i else i) % (2 ^ 64 : Int)).toNat ≥ len then
          .error ⟨"IndexException",
            "Index " ++ toString i ++ " is out of bounds for length " ++
              toString len ++ "."⟩
         else .ok ((if i < 0 then (len : Int) + i else i) % (2 ^ 64 : Int)).toNat) := by
    intro len i
    simp [validateListIndex, isIntegerQ]
  have hmain : ∀ (len : Nat) (i : Int), len ≤ 2 ^ 62 → -(2 ^ 62) ≤ i → i ≤ 2 ^ 62 →
      -(len : Int) ≤ i → i < len →
      validateListIndex len (.vnumber (i : ℚ)) =
        .ok (if i < 0 then (i + len).toNat else i.toNat) := by
    intro len i hlen hlo hhi h1 h2
    rw [heq]
    split_ifs with hneg hge hge <;> first | (exfalso; omega) | (congr 1; omega)
  refine ⟨?_, ?_, ?_, ?_⟩
  · intro len i hlen hlo hhi
    refine ⟨fun h => hmain len i hlen hlo hhi h.1 h.2, ?_⟩
    intro hout
    refine ⟨⟨"IndexException",
      "Index " ++ toString i ++ " is out of bounds for length " ++
        toString len ++ "."⟩, ?_, rfl⟩
    rw [heq]
    split_ifs with hneg hge hge <;> first | rfl | (exfalso; omega)
  · intro len q hq
    simp [validateListIndex, hq]
  · intro len v hv
    cases v <;> first | rfl | exact absurd rfl hv
  · intro L i hlen hlo hhi h1 h2
    rw [opGetIndexList, hmain L.length i hlen hlo hhi h1 h2]
    rfl

/-- C5 witness: the components applied at concrete inputs — a list of
length 2 read at indices 1, −1, 2, at a fractional index and at a
boolean index. -/
theorem spec_c5_list_index_witness :
    validateListIndex 2 (.vnumber ((1 : Int) : ℚ)) = .ok 1
    ∧ validateListIndex 2 (.vnumber ((-1 : Int) : ℚ)) = .ok 1
    ∧ (∃ e, validateListIndex 2 (.vnumber ((2 : Int) : ℚ)) = .error e ∧
        e.klass = "IndexException")
    ∧ validateListIndex 2 (.vnumber (1 / 2 : ℚ)) =
        .error ⟨"TypeException", "Index must be an integer."⟩
    ∧ validateListIndex 2 (.vbool true) =
        .error ⟨"TypeException", "Index must be a number."⟩
    ∧ opGetIndexList [.vbool false, .vbool true] (.vnumber ((-1 : Int) : ℚ)) =
        .ok (.vbool true) := by
  refine ⟨?_, ?_, ?_, ?_, ?_, ?_⟩
  · have h := (spec_c5_list_index.1 2 1 (by norm_num) (by norm_num)
      (by norm_num)).1 ⟨by norm_num, by norm_num⟩
    simpa using h
  · have h := (spec_c5_list_index.1 2 (-1) (by norm_num) (by norm_num)
      (by norm_num)).1 ⟨by norm_num, by norm_num⟩
    simpa using h
  · exact (spec_c5_list_index.1 2 2 (by norm_num) (by norm_num)
      (by norm_num)).2 (Or.inr (by norm_num))
  · exact spec_c5_list_index.2.1 2 (1 / 2 : ℚ) (by norm_num [isIntegerQ])
  · exact spec_c5_list_index.2.2.1 2 (.vbool true) (by decide)
  · have h := spec_c5_list_index.2.2.2 [.vbool false, .vbool true] (-1)
      (by norm_num) (by norm_num) (by norm_num) (by norm_num) (by norm_num)
    simpa using h

/-- C4 counterexample.  The claim says every shift whose left or right
operand is negative raises `TypeException`; but `OP_ASH` on `-2 >> 1`
(negative left operand, both whole) passes both guards of
`BITWISE_BINARY_OP` and pushes the arithmetic-shift result `-1` — no
exception is raised. -/
theorem spec_c4_counterexample :
    bitwiseBinaryOp ashDefined (.vnumber (-2 : ℚ)) (.vnumber (1 : ℚ)) =
      .ok (.vnumber (-1 : ℚ))
    ∧ ((-2 : ℚ) < 0) := by
  constructor
  · show bitwiseBinaryOp ashDefined (.vnumber (-2 : ℚ)) (.vnumber (1 : ℚ)) = _
    have h2 : ((-2 : ℚ)).num = -2 := rfl
    have h1 : ((1 : ℚ)).num = 1 := rfl
    simp only [bitwiseBinaryOp, isIntegerQ, h1, h2]
    norm_num [ashDefined]
    rfl
  · norm_num

/-- C4, amended.  The `BITWISE_BINARY_OP` macro behind `<<` and `>>`,
and the inline `OP_RSH` code behind `>>>`, raise
TypeException "Operands must be numbers." when an operand is not a
number and TypeException "Operands must be integers." when an operand is
not whole-valued; whole operands of either sign pass the guards and
produce a numeric result — negativity is never checked (a negative shift
amount reaches the C shift expression, which is undefined behaviour
there, rather than raising `TypeException`). -/
theorem spec_c4_shift_guard :
    (∀ (op : Int → Int → Int) (a b : Int),
      bitwiseBinaryOp op (.vnumber (a : ℚ)) (.vnumber (b : ℚ)) =
        .ok (.vnumber ((op a b : Int) : ℚ)))
    ∧ (∀ (op : Int → Int → Int) (p q : ℚ),
        isIntegerQ p = false ∨ isIntegerQ q = false →
        bitwiseBinaryOp op (.vnumber p) (.vnumber q) = .error errNotIntegers)
    ∧ (∀ (op : Int → Int → Int) (a b : Value),
        a.tag ≠ .tnumber ∨ b.tag ≠ .tnumber →
        bitwiseBinaryOp op a b = .error errNotNumbers)
    ∧ (∀ (conv : Int → Int → Int) (a b : Int),
        opRsh conv (.vnumber (a : ℚ)) (.vnumber (b : ℚ)) =
          .ok (.vnumber ((conv a b : Int) : ℚ)))
    ∧ (∀ (conv : Int → Int → Int) (p q : ℚ),
        isIntegerQ p = false ∨ isIntegerQ q = false →
        opRsh conv (.vnumber p) (.vnumber q) = .error errNotIntegers)
    ∧ (∀ (conv : Int → Int → Int) (a b : Value),
        a.tag ≠ .tnumber ∨ b.tag ≠ .tnumber →
        opRsh conv a b = .error errNotNumbers) := by
  refine ⟨?_, ?_, ?_, ?_, ?_, ?_⟩
  · intro op a b
    simp [bitwiseBinaryOp, isIntegerQ]
  · intro op p q h
    rcases h with h | h <;> simp [bitwiseBinaryOp, h]
  · intro op a b h
    cases a <;> cases b <;>
      first
        | rfl
        | exact absurd (Or.elim h (fun h1 => absurd rfl h1) fun h2 => absurd rfl h2)
            not_false
  · intro conv a b
    simp [opRsh, isIntegerQ]
  · intro conv p q h
    rcases h with h | h <;> simp [opRsh, h]
  · intro conv a b h
    cases a <;> cases b <;>
      first
        | rfl
        | exact absurd (Or.elim h (fun h1 => absurd rfl h1) fun h2 => absurd rfl h2)
            not_false

/-- C4 witness: the guard components applied at concrete operands. -/
theorem spec_c4_shift_guard_witness :
    bitwiseBinaryOp ashDefined (.vnumber ((4 : Int) : ℚ)) (.vnumber ((1 : Int) : ℚ)) =
      .ok (.vnumber ((2 : Int) : ℚ))
    ∧ bitwiseBinaryOp ashDefined (.vnumber (1 / 2 : ℚ)) (.vnumber ((1 : Int) : ℚ)) =
        .error errNotIntegers
    ∧ bitwiseBinaryOp ashDefined .vnull (.vnumber ((1 : Int) : ℚ)) =
        .error errNotNumbers
    ∧ opRsh rshDefined (.vnumber ((4 : Int) : ℚ)) (.vnumber ((1 : Int) : ℚ)) =
        .ok (.vnumber ((2 : Int) : ℚ))
    ∧ opRsh rshDefined (.vnumber (1 / 2 : ℚ)) (.vnumber ((1 : Int) : ℚ)) =
        .error errNotIntegers
    ∧ opRsh rshDefined .vnull (.vnumber ((1 : Int) : ℚ)) =
        .error errNotNumbers := by
  refine ⟨?_, ?_, ?_, ?_, ?_, ?_⟩
  · have h := spec_c4_shift_guard.1 ashDefined 4 1
    rw [h]
    norm_num [ashDefined]
    rfl
  · exact spec_c4_shift_guard.2.1 ashDefined _ _ (Or.inl (by norm_num [isIntegerQ]))
  · exact spec_c4_shift_guard.2.2.1 ashDefined .vnull _ (Or.inl (by decide))
  · have h := spec_c4_shift_guard.2.2.2.1 rshDefined 4 1
    rw [h]
    norm_num [rshDefined]
    rfl
  · exact spec_c4_shift_guard.2.2.2.2.1 rshDefined _ _
      (Or.inl (by norm_num [isIntegerQ]))
  · exact spec_c4_shift_guard.2.2.2.2.2 rshDefined .vnull _ (Or.inl (by decide))

/-- C1 (code evaluated at the failing input).  For
`function f(a, b...)` (declared arity 2, varargs) called as
`f(1, 2, 3, 4)`, the spec requires `a = 1` and `b = [2, 3, 4]`; the
`call` code instead collects only `peek(2)` and `peek(1)` (values 2 and
3), pops two slots, and leaves the callee and the first argument below
the frame base: the entered frame binds slot 1 (parameter `a`) to `2`
and slot 2 (parameter `b`) to the list `[2, 3]`, and the callee value
sits one slot below the frame where the caller will never reclaim it. -/
theorem spec_c1_varargs_call :
    callClosure ⟨2, true, false⟩ 4 0
        [.vnumber 4, .vnumber 3, .vnumber 2, .vnumber 1, .vobj .closure 7] =
      .entered
        [.vlist 0 [.vnumber 2, .vnumber 3], .vnumber 2, .vnumber 1,
          .vobj .closure 7] 2
    ∧ (callClosure ⟨2, true, false⟩ 4 0
        [.vnumber 4, .vnumber 3, .vnumber 2, .vnumber 1,
          .vobj .closure 7]).slotVal 1 = some (.vnumber 2)
    ∧ (callClosure ⟨2, true, false⟩ 4 0
        [.vnumber 4, .vnumber 3, .vnumber 2, .vnumber 1,
          .vobj .closure 7]).slotVal 2 =
        some (.vlist 0 [.vnumber 2, .vnumber 3])
    ∧ listsEqual [.vnumber 2, .vnumber 3] [.vnumber 2, .vnumber 3, .vnumber 4] =
        false
    ∧ valuesEqual (.vnumber 2) (.vnumber 1) = false := by
  refine ⟨?_, ?_, ?_, ?_, ?_⟩ <;> rfl

theorem unwindLoop_cons_step (acc : TraceAcc) (stack : List Value) (f : Frame)
    (rest : List Frame) (hf : f.isTry = false) (hne : rest ≠ []) :
    unwindLoop acc stack (f :: rest) =
      unwindLoop (traceStep acc f)
        ((stack.dropLast.take f.slots) ++ [stack.getLastD .vnull]) rest := by
  rw [unwindLoop, hf]
  cases rest with
  | nil => exact absurd rfl hne
  | cons a l => rfl

theorem unwindLoop_spec (P : List Frame) : ∀ (t : Frame) (R : List Frame)
    (acc : TraceAcc) (stack : List Value) (v : Value),
    (∀ f ∈ P, f.isTry = false) → t.isTry = true →
    stack.getLast? = some v →
    ∃ stack', unwindLoop acc stack (P ++ t :: R) =
        some (t :: R, stack', P.foldl traceStep acc)
      ∧ stack'.getLast? = some v := by
  induction P with
  | nil =>
    intro t R acc stack v _ ht hs
    refine ⟨stack, ?_, hs⟩
    simp [unwindLoop, ht]
  | cons f P ih =>
    intro t R acc stack v hP ht hs
    have hf : f.isTry = false := hP f (List.mem_cons_self f P)
    have hne : P ++ t :: R ≠ [] := by
      cases P <;> simp
    rw [List.cons_append, unwindLoop_cons_step acc stack f (P ++ t :: R) hf hne]
    have hs' : ((stack.dropLast.take f.slots) ++ [stack.getLastD .vnull]).getLast? =
        some v := by
      rw [List.getLast?_concat, List.getLastD_eq_getLast?, hs]
      rfl
    obtain ⟨stack', h1, h2⟩ := ih t R (traceStep acc f)
      ((stack.dropLast.take f.slots) ++ [stack.getLastD .vnull]) v
      (fun g hg => hP g (List.mem_cons_of_mem f hg)) ht hs'
    exact ⟨stack', by rw [h1]; rfl, h2⟩

/-- C2.  When the call stack is `P ++ t :: R` (top first) with every
frame of `P` not in try mode and `t` in try mode, and the throwee
instance sits on top of the value stack, `throwGeneral` unwinds exactly
to `t`: the result frames are `t` (with `is_try` cleared and ip set to
the saved catch target) over `R`, so the frame count equals `t`'s depth;
the throwee instance is still on top of the value stack; and the trace
list stored into the instance's `stackTrace` field is the collected
trace of the header, the popped frames and the try frame. -/
theorem spec_c2_throw_unwinding (cls msg : String) (P : List Frame) (t : Frame)
    (R : List Frame) (stack : List Value) (tid : Nat)
    (hP : ∀ f ∈ P, f.isTry = false) (ht : t.isTry = true)
    (hs : stack.getLast? = some (.vobj .inst tid)) :
    ∃ out : ThrowOutcome,
      throwGeneral cls msg (P ++ t :: R) stack = some out
      ∧ out.frames = { t with isTry := false, ip := t.catchJump } :: R
      ∧ out.frames.length = R.length + 1
      ∧ out.stack.getLast? = some (.vobj .inst tid)
      ∧ out.trace = collectTrace cls msg P t := by
  obtain ⟨stack', h1, h2⟩ := unwindLoop_spec P t R
    ⟨[.header cls msg], 0, none, 0, false⟩ stack (.vobj .inst tid) hP ht hs
  refine ⟨⟨{ t with isTry := false, ip := t.catchJump } :: R, stack',
    ((P.foldl traceStep ⟨[.header cls msg], 0, none, 0, false⟩).entries ++
      [.frameLine t.line t.fnName])⟩, ?_, rfl, by simp, h2, rfl⟩
  rw [throwGeneral, h1]

/-- C2 witness: a two-frame stack (one plain frame above one try frame)
with the exception instance on top of the value stack. -/
theorem spec_c2_throw_unwinding_witness :
    ∃ out : ThrowOutcome,
      throwGeneral "TypeException" "boom"
          [⟨1, some "g", 3, 1, false, 0, 10⟩, ⟨0, none, 1, 0, true, 42, 9⟩]
          [.vnull, .vobj .inst 5] = some out
      ∧ out.frames = [⟨0, none, 1, 0, false, 42, 42⟩]
      ∧ out.frames.length = 0 + 1
      ∧ out.stack.getLast? = some (.vobj .inst 5)
      ∧ out.trace = collectTrace "TypeException" "boom"
          [⟨1, some "g", 3, 1, false, 0, 10⟩] ⟨0, none, 1, 0, true, 42, 9⟩ := by
  have h := spec_c2_throw_unwinding "TypeException" "boom"
    [⟨1, some "g", 3, 1, false, 0, 10⟩] ⟨0, none, 1, 0, true, 42, 9⟩ []
    [.vnull, .vobj .inst 5] 5 (by simp) rfl rfl
  simpa using h

theorem findEntryAux_key_shape (entries : List Entry) (k : StrObj) :
    ∀ (fuel idx : Nat) (tomb : Option Nat) (i : Nat),
    (∀ t, tomb = some t → (entryAt entries t).key = none) →
    findEntryAux entries k fuel idx tomb = some i →
    (entryAt entries i).key = none ∨ (entryAt entries i).key = some k := by
  intro fuel
  induction fuel with
  | zero => intro idx tomb i _ h; simp [findEntryAux] at h
  | succ fuel ih =>
    intro idx tomb i htomb h
    rw [findEntryAux] at h
    split at h
    · rename_i hk
      split at h
      · rcases htv : tomb with _ | t
        · subst htv
          simp at h
          subst h
          exact Or.inl hk
        · subst htv
          simp at h
          subst h
          exact Or.inl (htomb _ rfl)
      · refine ih _ _ i ?_ h
        intro t ht
        rcases tomb with _ | t0
        · simp at ht; subst ht; exact hk
        · simp at ht; subst ht; exact htomb t0 rfl
    · rename_i k' hk
      split at h
      · rename_i he
        simp at h
        subst h
        subst he
        exact Or.inr hk
      · exact ih _ _ i htomb h

theorem entryAt_mem_of_key_some (entries : List Entry) (idx : Nat) (k' : StrObj)
    (h : (entryAt entries idx).key = some k') : entryAt entries idx ∈ entries := by
  by_cases hlen : idx < entries.length
  · rw [entryAt, List.getD_eq_getElem _ _ hlen]
    exact List.getElem_mem hlen
  · rw [entryAt, List.getD_eq_default _ _ (by omega)] at h
    simp at h

theorem getD_set_ne {α : Type} (l : List α) (i idx : Nat) (x d : α)
    (h : i ≠ idx) : (l.set i x).getD idx d = l.getD idx d := by
  by_cases hlen : idx < l.length
  · rw [List.getD_eq_getElem _ _ (by simpa using hlen),
      List.getD_eq_getElem _ _ hlen]
    exact List.getElem_set_ne h _
  · rw [List.getD_eq_default _ _ (by simp; omega), List.getD_eq_default _ _ (by omega)]

theorem getD_set_self {α : Type} (l : List α) (i : Nat) (x d : α)
    (h : i < l.length) : (l.set i x).getD i d = x := by
  rw [List.getD_eq_getElem _ _ (by simpa using h)]
  exact List.getElem_set_self _

theorem findEntryAux_tomb_fixed (entries : List Entry) (k : StrObj)
    (habs : keyAbsent entries k) :
    ∀ (fuel idx t i : Nat), findEntryAux entries k fuel idx (some t) = some i →
      i = t := by
  intro fuel
  induction fuel with
  | zero => intro idx t i h; simp [findEntryAux] at h
  | succ fuel ih =>
    intro idx t i h
    rw [findEntryAux] at h
    split at h
    · split at h
      · simp at h
        omega
      · exact ih _ _ _ h
    · rename_i k' hk
      split at h
      · rename_i he
        subst he
        exact absurd hk (habs _ (entryAt_mem_of_key_some entries idx _ hk))
      · exact ih _ _ _ h

theorem exists_probe_offset (M idx j : Nat) (hM : 0 < M) (hidx : idx < M)
    (hj : j < M) : ∃ t, t < M ∧ (idx + t) % M = j := by
  refine ⟨(j + M - idx) % M, Nat.mod_lt _ hM, ?_⟩
  rw [Nat.add_comm idx _, Nat.mod_add_mod]
  have h1 : j + M - idx + idx = j + M := by omega
  rw [h1, Nat.add_mod_right]
  exact Nat.mod_eq_of_lt hj

theorem findEntryAux_isSome (entries : List Entry) (k : StrObj) (m : Nat)
    (hcap : entries.length = 2 ^ m) :
    ∀ (fuel idx : Nat) (tomb : Option Nat), idx < 2 ^ m →
    (∃ t, t < fuel ∧ (entryAt entries ((idx + t) % 2 ^ m)).isFresh = true) →
    (findEntryAux entries k fuel idx tomb).isSome := by
  intro fuel
  induction fuel with
  | zero => rintro idx tomb _ ⟨t, ht, _⟩; omega
  | succ fuel ih =>
    rintro idx tomb hidx ⟨t, ht, hfr⟩
    rw [findEntryAux]
    split
    · rename_i hk
      split
      · rfl
      · rename_i hv
        have ht0 : t ≠ 0 := by
          intro h0
          subst h0
          rw [Nat.add_zero, Nat.mod_eq_of_lt hidx] at hfr
          rw [Entry.isFresh, entryAt, hk] at hfr
          simp at hfr
          simp [hfr] at hv
        rw [hcap, Nat.and_pow_two_sub_one_eq_mod]
        apply ih _ _ (Nat.mod_lt _ (by positivity))
        refine ⟨t - 1, by omega, ?_⟩
        rw [Nat.mod_add_mod]
        have h2 : idx + 1 + (t - 1) = idx + t := by omega
        rw [h2]
        exact hfr
    · rename_i k' hk
      split
      · rfl
      · have ht0 : t ≠ 0 := by
          intro h0
          subst h0
          rw [Nat.add_zero, Nat.mod_eq_of_lt hidx] at hfr
          rw [Entry.isFresh, entryAt, hk] at hfr
          simp at hfr
        rw [hcap, Nat.and_pow_two_sub_one_eq_mod]
        apply ih _ _ (Nat.mod_lt _ (by positivity))
        refine ⟨t - 1, by omega, ?_⟩
        rw [Nat.mod_add_mod]
        have h2 : idx + 1 + (t - 1) = idx + t := by omega
        rw [h2]
        exact hfr

theorem findEntry_isSome (entries : List Entry) (k : StrObj) (m : Nat)
    (hcap : entries.length = 2 ^ m)
    (hfr : ∃ j, j < 2 ^ m ∧ (entryAt entries j).isFresh = true) :
    (findEntry entries k).isSome := by
  obtain ⟨j, hj, hfrj⟩ := hfr
  rw [findEntry, hcap, Nat.and_pow_two_sub_one_eq_mod]
  have hidx : k.hash % 2 ^ m < 2 ^ m := Nat.mod_lt _ (by positivity)
  obtain ⟨t, ht, hpos⟩ := exists_probe_offset (2 ^ m) (k.hash % 2 ^ m) j
    (by positivity) hidx hj
  exact findEntryAux_isSome entries k m hcap _ _ none hidx
    ⟨t, by omega, by rw [hpos]; exact hfrj⟩

theorem findEntryAux_refind (entries : List Entry) (k : StrObj) (v : Value)
    (i : Nat) (hki : (entryAt entries i).key = none) (hlen : i < entries.length) :
    ∀ (fuel idx : Nat) (tomb : Option Nat),
      findEntryAux entries k fuel idx tomb = some i →
      findEntryAux (entries.set i ⟨some k, v⟩) k fuel idx tomb = some i := by
  intro fuel
  induction fuel with
  | zero => intro idx tomb h; simp [findEntryAux] at h
  | succ fuel ih =>
    intro idx tomb h
    by_cases hii : idx = i
    · subst hii
      rw [findEntryAux]
      have hcell : (entries.set idx ⟨some k, v⟩).getD idx ⟨none, .vnull⟩ =
          ⟨some k, v⟩ := getD_set_self _ _ _ _ hlen
      rw [hcell]
      simp
    · have hcell : (entries.set i ⟨some k, v⟩).getD idx ⟨none, .vnull⟩ =
          entries.getD idx ⟨none, .vnull⟩ :=
        getD_set_ne _ _ _ _ _ (fun he => hii he.symm)
      rw [findEntryAux] at h ⊢
      rw [hcell, List.length_set]
      split at h
      · split at h
        · rename_i hv
          rw [if_pos hv]
          exact h
        · rename_i hv
          rw [if_neg hv]
          exact ih _ _ h
      · split at h
        · rename_i he
          rw [if_pos he]
          exact h
        · rename_i he
          rw [if_neg he]
          exact ih _ _ h

theorem tableSet_no_growth (t : Table) (k : StrObj) (v : Value) (i : Nat)
    (hng : ¬ 4 * (t.count + 1) > 3 * t.capacity)
    (hfind : findEntry t.entries k = some i) :
    tableSet t k v = some
      (⟨(if (entryAt t.entries i).key.isNone && isNullV (entryAt t.entries i).value
            then t.count + 1 else t.count) +
          (if (entryAt t.entries i).key.isNone then 1 else 0),
        t.entries.set i ⟨some k, v⟩⟩, (entryAt t.entries i).key.isNone) := by
  simp only [tableSet, if_neg hng, Option.bind_eq_bind, Option.some_bind, hfind, entryAt]
  split_ifs <;> simp_all

/-- C3 counterexample.  Inserting an absent key into a table all of
whose cells are fresh increments `count` by two, not one: on
`tableSet` of key `x` into an empty eight-cell table, `count` goes from
0 to 2. -/
theorem spec_c3_counterexample :
    (∀ e ∈ (⟨0, List.replicate 8 ⟨none, Value.vnull⟩⟩ : Table).entries,
        e.key ≠ some ⟨0, 0, "x"⟩)
    ∧ (tableSet ⟨0, List.replicate 8 ⟨none, Value.vnull⟩⟩ ⟨0, 0, "x"⟩ .vnull).map
        (fun p => (p.1.count, p.2)) = some (2, true)
    ∧ (2 : Nat) ≠ 0 + 1 := by
  refine ⟨?_, rfl, by omega⟩
  intro e he
  simp [List.mem_replicate] at he
  simp [he]

/-- C3, amended.  `tableSet` on a key that is not present does insert
the binding and report a new key, but the `count` field grows by **two**
when the chosen cell is fresh (never used) and by one when it is a
tombstone — the two consecutive increments in the C code; for a key
already present `count` is unchanged.  Growth is still triggered by
`count + 1 > 0.75 * capacity`, so `count` over-counts occupancy by one
per fresh-cell insertion since the last rehash. -/
theorem spec_c3_tableSet_count (t : Table) (k : StrObj) (v : Value) (i : Nat)
    (hng : ¬ 4 * (t.count + 1) > 3 * t.capacity)
    (hfind : findEntry t.entries k = some i) :
    ((entryAt t.entries i).isFresh = true →
        tableSet t k v = some (⟨t.count + 2, t.entries.set i ⟨some k, v⟩⟩, true))
    ∧ ((entryAt t.entries i).key = none →
        isNullV (entryAt t.entries i).value = false →
        tableSet t k v = some (⟨t.count + 1, t.entries.set i ⟨some k, v⟩⟩, true))
    ∧ (∀ k0, (entryAt t.entries i).key = some k0 →
        tableSet t k v = some (⟨t.count, t.entries.set i ⟨some k, v⟩⟩, false)) := by
  refine ⟨?_, ?_, ?_⟩
  · intro hfr
    rw [Entry.isFresh, Bool.and_eq_true] at hfr
    rw [tableSet_no_growth t k v i hng hfind, hfr.1, hfr.2]
    simp
  · intro hk hv
    rw [tableSet_no_growth t k v i hng hfind, hk, hv]
    simp
  · intro k0 hk
    rw [tableSet_no_growth t k v i hng hfind, hk]
    simp

/-- C3 witness: the three cell states at concrete tables — a fresh
cell (count 0 to 2), a tombstone cell (count 1 to 2), and a present key
(count unchanged). -/
theorem spec_c3_tableSet_count_witness :
    tableSet ⟨0, List.replicate 8 ⟨none, Value.vnull⟩⟩ ⟨0, 0, "x"⟩ .vnull =
      some (⟨0 + 2, (List.replicate 8 (⟨none, Value.vnull⟩ : Entry)).set 0
        ⟨some ⟨0, 0, "x"⟩, .vnull⟩⟩, true)
    ∧ tableSet ⟨1, ⟨none, .vbool true⟩ :: List.replicate 7 ⟨none, Value.vnull⟩⟩
        ⟨0, 0, "x"⟩ .vnull =
      some (⟨1 + 1, ((⟨none, .vbool true⟩ : Entry) ::
        List.replicate 7 (⟨none, Value.vnull⟩ : Entry)).set 0
        ⟨some ⟨0, 0, "x"⟩, .vnull⟩⟩, true)
    ∧ tableSet ⟨2, ⟨some ⟨0, 0, "x"⟩, .vnull⟩ :: List.replicate 7 ⟨none, Value.vnull⟩⟩
        ⟨0, 0, "x"⟩ (.vbool false) =
      some (⟨2, ((⟨some ⟨0, 0, "x"⟩, .vnull⟩ : Entry) ::
        List.replicate 7 (⟨none, Value.vnull⟩ : Entry)).set 0
        ⟨some ⟨0, 0, "x"⟩, .vbool false⟩⟩, false) := by
  refine ⟨?_, ?_, ?_⟩
  · exact (spec_c3_tableSet_count ⟨0, List.replicate 8 ⟨none, Value.vnull⟩⟩
      ⟨0, 0, "x"⟩ Value.vnull 0 (by norm_num [Table.capacity]) rfl).1 rfl
  · exact (spec_c3_tableSet_count
      ⟨1, ⟨none, .vbool true⟩ :: List.replicate 7 ⟨none, Value.vnull⟩⟩
      ⟨0, 0, "x"⟩ Value.vnull 0 (by norm_num [Table.capacity]) rfl).2.1 rfl rfl
  · exact (spec_c3_tableSet_count
      ⟨2, ⟨some ⟨0, 0, "x"⟩, .vnull⟩ :: List.replicate 7 ⟨none, Value.vnull⟩⟩
      ⟨0, 0, "x"⟩ (.vbool false) 0 (by norm_num [Table.capacity]) rfl).2.2 _ rfl

theorem findEntryAux_lt (entries : List Entry) (k : StrObj)
    (hpos : 0 < entries.length) :
    ∀ (fuel idx : Nat) (tomb : Option Nat) (i : Nat), idx < entries.length →
    (∀ t, tomb = some t → t < entries.length) →
    findEntryAux entries k fuel idx tomb = some i → i < entries.length := by
  intro fuel
  induction fuel with
  | zero => intro idx tomb i _ _ h; simp [findEntryAux] at h
  | succ fuel ih =>
    intro idx tomb i hidx htomb h
    have hnext : (idx + 1) &&& (entries.length - 1) < entries.length := by
      calc (idx + 1) &&& (entries.length - 1) ≤ entries.length - 1 :=
            Nat.and_le_right
        _ < entries.length := by omega
    rw [findEntryAux] at h
    split at h
    · split at h
      · rcases htv : tomb with _ | t
        · subst htv; simp at h; omega
        · subst htv; simp at h; subst h; exact htomb _ rfl
      · refine ih _ _ _ hnext ?_ h
        intro t ht
        rcases tomb with _ | t0
        · simp at ht; omega
        · simp at ht; subst ht; exact htomb t0 rfl
    · split at h
      · simp at h; omega
      · exact ih _ _ _ hnext htomb h

theorem findEntry_lt (entries : List Entry) (k : StrObj) (i : Nat)
    (hpos : 0 < entries.length) (h : findEntry entries k = some i) :
    i < entries.length := by
  rw [findEntry] at h
  refine findEntryAux_lt entries k hpos _ _ none i ?_ (by simp) h
  calc k.hash &&& (entries.length - 1) ≤ entries.length - 1 := Nat.and_le_right
    _ < entries.length := by omega

theorem tableGet_absent (t : Table) (k : StrObj) (m : Nat)
    (hcap : t.entries.length = 2 ^ m)
    (habs : keyAbsent t.entries k)
    (hfr : ∃ j, j < 2 ^ m ∧ (entryAt t.entries j).isFresh = true) :
    tableGet t k = some none := by
  rw [tableGet]
  split_ifs with hc
  · rfl
  · have hsome := findEntry_isSome t.entries k m hcap hfr
    obtain ⟨i, hi⟩ := Option.isSome_iff_exists.mp hsome
    have hi' := hi
    rw [findEntry] at hi'
    have hshape := findEntryAux_key_shape t.entries k _ _ _ i (by simp) hi'
    rw [hi]
    rcases hshape with hnone | hkey
    · rw [entryAt] at hnone
      simp only [hnone]
    · exact absurd hkey (habs _ (entryAt_mem_of_key_some _ _ _ hkey))

/-- C7.  `OP_SET_GLOBAL` on a name with no binding in the current
module's globals raises `UndefinedVariableException` and the tentative
entry inserted by `tableSet` is deleted again, so the globals table
still has no binding for that name; a bound name is updated in place;
and the opcode touches only the current closure's owner module's table.
The table-shape hypotheses (power-of-two capacity, no growth trigger,
two fresh cells) are the invariants the VM maintains through the 75%
load factor. -/
theorem spec_c7_set_global :
    (∀ (globals : Table) (name : StrObj) (v : Value) (m : Nat),
      globals.entries.length = 2 ^ m →
      ¬ 4 * (globals.count + 1) > 3 * globals.capacity →
      keyAbsent globals.entries name →
      (∃ j1 j2, j1 < 2 ^ m ∧ j2 < 2 ^ m ∧ j1 ≠ j2 ∧
        (entryAt globals.entries j1).isFresh = true ∧
        (entryAt globals.entries j2).isFresh = true) →
      ∃ res : SetGlobalResult, opSetGlobal globals name v = some res
        ∧ res.error = some ⟨"UndefinedVariableException",
            "Undefined variable " ++ name.chars ++ "."⟩
        ∧ tableGet res.globals name = some none)
    ∧ (∀ (globals : Table) (name : StrObj) (v : Value) (i : Nat),
        ¬ 4 * (globals.count + 1) > 3 * globals.capacity →
        findEntry globals.entries name = some i →
        (entryAt globals.entries i).key = some name →
        opSetGlobal globals name v =
          some ⟨⟨globals.count, globals.entries.set i ⟨some name, v⟩⟩, none⟩)
    ∧ (∀ (modules : List Table) (cur : Nat) (name : StrObj) (v : Value) out,
        opSetGlobalVM modules cur name v = some out →
        ∀ j, j ≠ cur → out.1.getD j ⟨0, []⟩ = modules.getD j ⟨0, []⟩) := by
  refine ⟨?_, ?_, ?_⟩
  · intro globals name v m hcap hng habs hfr2
    obtain ⟨j1, j2, hj1, hj2, hne, hfr1, hfr2'⟩ := hfr2
    have hpos : 0 < globals.entries.length := by rw [hcap]; positivity
    have hsome := findEntry_isSome globals.entries name m hcap ⟨j1, hj1, hfr1⟩
    obtain ⟨i, hi⟩ := Option.isSome_iff_exists.mp hsome
    have hilen : i < globals.entries.length := findEntry_lt _ _ _ hpos hi
    have hi' := hi
    rw [findEntry] at hi'
    have hshape := findEntryAux_key_shape globals.entries name _ _ _ i (by simp) hi'
    have hknone : (entryAt globals.entries i).key = none := by
      rcases hshape with h | h
      · exact h
      · exact absurd h (habs _ (entryAt_mem_of_key_some _ _ _ h))
    have hset := tableSet_no_growth globals name v i hng hi
    rw [hknone] at hset
    simp only [Option.isNone_none, Bool.true_and, if_pos rfl, if_true] at hset
    set cnt1 : Nat :=
      (if isNullV (entryAt globals.entries i).value = true
        then globals.count + 1 else globals.count) + 1 with hcnt1
    have hcntpos : cnt1 ≠ 0 := by
      rw [hcnt1]
      split_ifs <;> omega
    -- the probe for the delete lands on the freshly inserted cell
    have hrefind : findEntry (globals.entries.set i ⟨some name, v⟩) name = some i := by
      rw [findEntry, List.length_set]
      exact findEntryAux_refind globals.entries name v i hknone hilen _ _ _ hi'
    have hdel : tableDelete ⟨cnt1, globals.entries.set i ⟨some name, v⟩⟩ name =
        some (⟨cnt1, globals.entries.set i ⟨none, .vbool true⟩⟩, true) := by
      rw [tableDelete]
      rw [if_neg hcntpos]
      simp only [hrefind]
      rw [show (globals.entries.set i ⟨some name, v⟩).getD i ⟨none, .vnull⟩ =
        ⟨some name, v⟩ from getD_set_self _ _ _ _ hilen]
      simp only [List.set_set]
    refine ⟨⟨⟨cnt1, globals.entries.set i ⟨none, .vbool true⟩⟩,
      some ⟨"UndefinedVariableException",
        "Undefined variable " ++ name.chars ++ "."⟩⟩, ?_, rfl, ?_⟩
    · simp only [opSetGlobal, hset, Option.bind_eq_bind, Option.some_bind,
        if_pos rfl, hdel]
      rfl
    · refine tableGet_absent _ name m (by simp [hcap]) ?_ ?_
      · intro e he
        rcases List.mem_or_eq_of_mem_set he with h | h
        · exact habs e h
        · subst h; simp
      · by_cases hji : j1 = i
        · refine ⟨j2, hj2, ?_⟩
          rw [entryAt, getD_set_ne _ _ _ _ _ (by omega)]
          exact hfr2'
        · refine ⟨j1, hj1, ?_⟩
          rw [entryAt, getD_set_ne _ _ _ _ _ (by omega)]
          exact hfr1
  · intro globals name v i hng hfind hkey
    have hset := tableSet_no_growth globals name v i hng hfind
    rw [hkey] at hset
    simp only [Option.isNone_some, Bool.false_and, if_neg] at hset
    simp only [opSetGlobal, hset, Option.bind_eq_bind, Option.some_bind]
    simp
  · intro modules cur name v out hout j hj
    simp only [opSetGlobalVM, Option.bind_eq_bind] at hout
    rcases hres : opSetGlobal (modules.getD cur ⟨0, []⟩) name v with _ | res
    · rw [hres] at hout; simp at hout
    · rw [hres] at hout
      simp at hout
      rw [← hout]
      exact getD_set_ne _ _ _ _ _ (fun he => hj he.symm)

/-- C7 witness: an absent name on an empty eight-cell globals table (the
exception is raised and the name stays unbound), a present name (updated
in place, no exception), and a two-module VM where module 1 is untouched
by a store through module 0. -/
theorem spec_c7_set_global_witness :
    (∃ res : SetGlobalResult,
      opSetGlobal ⟨0, List.replicate 8 ⟨none, Value.vnull⟩⟩ ⟨0, 0, "x"⟩
          (.vbool true) = some res
        ∧ res.error = some ⟨"UndefinedVariableException",
            "Undefined variable " ++ (⟨0, 0, "x"⟩ : StrObj).chars ++ "."⟩
        ∧ tableGet res.globals ⟨0, 0, "x"⟩ = some none)
    ∧ opSetGlobal
        ⟨2, ⟨some ⟨0, 0, "x"⟩, .vnull⟩ :: List.replicate 7 ⟨none, Value.vnull⟩⟩
        ⟨0, 0, "x"⟩ (.vbool true) =
      some ⟨⟨2, ((⟨some ⟨0, 0, "x"⟩, .vnull⟩ : Entry) ::
        List.replicate 7 (⟨none, Value.vnull⟩ : Entry)).set 0
          ⟨some ⟨0, 0, "x"⟩, .vbool true⟩⟩, none⟩
    ∧ (opSetGlobalVM
        [⟨2, ⟨some ⟨0, 0, "x"⟩, .vnull⟩ :: List.replicate 7 ⟨none, Value.vnull⟩⟩,
          ⟨0, []⟩] 0 ⟨0, 0, "x"⟩ (.vbool true)).map
          (fun out => out.1.getD 1 ⟨0, []⟩) = some (⟨0, []⟩ : Table) := by
  refine ⟨?_, ?_, ?_⟩
  · exact spec_c7_set_global.1 ⟨0, List.replicate 8 ⟨none, Value.vnull⟩⟩
      ⟨0, 0, "x"⟩ (.vbool true) 3 (by norm_num) (by norm_num [Table.capacity])
      (by intro e he; simp [List.mem_replicate] at he; simp [he])
      ⟨1, 2, by norm_num, by norm_num, by omega, rfl, rfl⟩
  · exact spec_c7_set_global.2.1
      ⟨2, ⟨some ⟨0, 0, "x"⟩, .vnull⟩ :: List.replicate 7 ⟨none, Value.vnull⟩⟩
      ⟨0, 0, "x"⟩ (.vbool true) 0 (by norm_num [Table.capacity]) rfl rfl
  · have h := spec_c7_set_global.2.2
      [⟨2, ⟨some ⟨0, 0, "x"⟩, .vnull⟩ :: List.replicate 7 ⟨none, Value.vnull⟩⟩,
        ⟨0, []⟩] 0 ⟨0, 0, "x"⟩ (.vbool true)
    rcases hout : opSetGlobalVM
        [⟨2, ⟨some ⟨0, 0, "x"⟩, .vnull⟩ :: List.replicate 7 ⟨none, Value.vnull⟩⟩,
          ⟨0, []⟩] 0 ⟨0, 0, "x"⟩ (.vbool true) with _ | out
    · exact absurd hout (by
        intro hc
        have : (opSetGlobalVM
          [⟨2, ⟨some ⟨0, 0, "x"⟩, .vnull⟩ :: List.replicate 7 ⟨none, Value.vnull⟩⟩,
            ⟨0, []⟩] 0 ⟨0, 0, "x"⟩ (.vbool true)).isSome = true := rfl
        rw [hc] at this
        simp at this)
    · have h2 := h out hout 1 (by omega)
      simp only [Option.map_some']
      rw [h2]
      rfl

/-- C10.  Indexing an instance with a string key absent from its field
table evaluates to null with no exception (`OP_GET_INDEX` pushes
`NULL_VAL` on a field-table miss), while property access on a name
that is neither a field nor a class method raises `PropertyException`
(`bindMethod`): the two lookup forms disagree on missing names.  The
shape hypotheses are the table invariants (power-of-two capacity, a
fresh cell). -/
theorem spec_c10_index_vs_property :
    (∀ (fields : Table) (k : StrObj) (m : Nat),
      fields.entries.length = 2 ^ m →
      keyAbsent fields.entries k →
      (∃ j, j < 2 ^ m ∧ (entryAt fields.entries j).isFresh = true) →
      opGetIndexInstance fields (.vstr k) = some (.ok .vnull))
    ∧ (∀ (fields methods : Table) (k : StrObj) (m1 m2 : Nat),
        fields.entries.length = 2 ^ m1 →
        methods.entries.length = 2 ^ m2 →
        keyAbsent fields.entries k →
        keyAbsent methods.entries k →
        (∃ j, j < 2 ^ m1 ∧ (entryAt fields.entries j).isFresh = true) →
        (∃ j, j < 2 ^ m2 ∧ (entryAt methods.entries j).isFresh = true) →
        opGetProperty fields methods k =
          some (.error ⟨"PropertyException",
            "Undefined property " ++ k.chars ++ "."⟩)) := by
  constructor
  · intro fields k m hcap habs hfr
    have hget := tableGet_absent fields k m hcap habs hfr
    simp [opGetIndexInstance, hget]
  · intro fields methods k m1 m2 hcap1 hcap2 habs1 habs2 hfr1 hfr2
    have hget1 := tableGet_absent fields k m1 hcap1 habs1 hfr1
    have hget2 := tableGet_absent methods k m2 hcap2 habs2 hfr2
    simp [opGetProperty, hget1, hget2]

/-- C10 witness: empty eight-cell field and method tables and the key
named x. -/
theorem spec_c10_index_vs_property_witness :
    opGetIndexInstance ⟨0, List.replicate 8 ⟨none, Value.vnull⟩⟩
        (.vstr ⟨0, 0, "x"⟩) = some (.ok .vnull)
    ∧ opGetProperty ⟨0, List.replicate 8 ⟨none, Value.vnull⟩⟩
        ⟨0, List.replicate 8 ⟨none, Value.vnull⟩⟩ ⟨0, 0, "x"⟩ =
      some (.error ⟨"PropertyException",
        "Undefined property " ++ (⟨0, 0, "x"⟩ : StrObj).chars ++ "."⟩) := by
  constructor
  · exact spec_c10_index_vs_property.1 ⟨0, List.replicate 8 ⟨none, Value.vnull⟩⟩
      ⟨0, 0, "x"⟩ 3 (by norm_num)
      (by intro e he; simp [List.mem_replicate] at he; simp [he])
      ⟨0, by norm_num, rfl⟩
  · exact spec_c10_index_vs_property.2 ⟨0, List.replicate 8 ⟨none, Value.vnull⟩⟩
      ⟨0, List.replicate 8 ⟨none, Value.vnull⟩⟩ ⟨0, 0, "x"⟩ 3 3
      (by norm_num) (by norm_num)
      (by intro e he; simp [List.mem_replicate] at he; simp [he])
      (by intro e he; simp [List.mem_replicate] at he; simp [he])
      ⟨0, by norm_num, rfl⟩ ⟨0, by norm_num, rfl⟩

theorem tableFindStringAux_isSome (entries : List Entry) (c : String) (h0 : Nat)
    (m : Nat) (hcap : entries.length = 2 ^ m) :
    ∀ (fuel idx : Nat), idx < 2 ^ m →
    (∃ t, t < fuel ∧ (entryAt entries ((idx + t) % 2 ^ m)).isFresh = true) →
    (tableFindStringAux entries c h0 fuel idx).isSome := by
  intro fuel
  induction fuel with
  | zero => rintro idx _ ⟨t, ht, _⟩; omega
  | succ fuel ih =>
    rintro idx hidx ⟨t, ht, hfr⟩
    rw [tableFindStringAux]
    split
    · rename_i hk
      split
      · rfl
      · rename_i hv
        have ht0 : t ≠ 0 := by
          intro h0'
          subst h0'
          rw [Nat.add_zero, Nat.mod_eq_of_lt hidx] at hfr
          rw [Entry.isFresh, entryAt, hk] at hfr
          simp at hfr
          simp [hfr] at hv
        rw [hcap, Nat.and_pow_two_sub_one_eq_mod]
        apply ih _ (Nat.mod_lt _ (by positivity))
        refine ⟨t - 1, by omega, ?_⟩
        rw [Nat.mod_add_mod]
        have h2 : idx + 1 + (t - 1) = idx + t := by omega
        rw [h2]
        exact hfr
    · rename_i k' hk
      split
      · rfl
      · have ht0 : t ≠ 0 := by
          intro h0'
          subst h0'
          rw [Nat.add_zero, Nat.mod_eq_of_lt hidx] at hfr
          rw [Entry.isFresh, entryAt, hk] at hfr
          simp at hfr
        rw [hcap, Nat.and_pow_two_sub_one_eq_mod]
        apply ih _ (Nat.mod_lt _ (by positivity))
        refine ⟨t - 1, by omega, ?_⟩
        rw [Nat.mod_add_mod]
        have h2 : idx + 1 + (t - 1) = idx + t := by omega
        rw [h2]
        exact hfr

theorem tableFindStringAux_found (entries : List Entry) (c : String) (h0 : Nat)
    (k : StrObj) :
    ∀ (fuel idx : Nat), tableFindStringAux entries c h0 fuel idx = some (some k) →
    k.chars = c ∧ k.hash = h0 ∧ ∃ idx2, (entryAt entries idx2).key = some k := by
  intro fuel
  induction fuel with
  | zero => intro idx h; simp [tableFindStringAux] at h
  | succ fuel ih =>
    intro idx h
    rw [tableFindStringAux] at h
    split at h
    · split at h
      · simp at h
      · exact ih _ h
    · rename_i k' hk
      split at h
      · rename_i hcond
        simp at h
        subst h
        exact ⟨hcond.2.2, hcond.2.1, idx, hk⟩
      · exact ih _ h

theorem tableFindStringAux_all_fresh (entries : List Entry) (c : String)
    (h0 : Nat) (fuel idx : Nat)
    (hall : ∀ e ∈ entries, e.isFresh = true) (hidx : idx < entries.length) :
    tableFindStringAux entries c h0 (fuel + 1) idx = some none := by
  have hmem : entries.getD idx ⟨none, .vnull⟩ ∈ entries := by
    rw [List.getD_eq_getElem _ _ hidx]
    exact List.getElem_mem hidx
  have hfr := hall _ hmem
  rw [Entry.isFresh, Bool.and_eq_true] at hfr
  rw [tableFindStringAux]
  split
  · rw [if_pos hfr.2]
  · rename_i k' hk
    rw [hk] at hfr
    simp at hfr

theorem tableFindStringAux_after_insert (entries : List Entry) (fresh : StrObj)
    (v : Value) (i : Nat)
    (habs : keyAbsent entries fresh)
    (hki : (entryAt entries i).key = none)
    (hlen : i < entries.length) :
    ∀ (fuel idx : Nat),
      tableFindStringAux entries fresh.chars fresh.hash fuel idx = some none →
      findEntryAux entries fresh fuel idx none = some i →
      tableFindStringAux (entries.set i ⟨some fresh, v⟩) fresh.chars fresh.hash
        fuel idx = some (some fresh) := by
  intro fuel
  induction fuel with
  | zero => intro idx hfs _; simp [tableFindStringAux] at hfs
  | succ fuel ih =>
    intro idx hfs hfe
    by_cases hii : idx = i
    · subst hii
      rw [tableFindStringAux]
      rw [show (entries.set idx ⟨some fresh, v⟩).getD idx ⟨none, .vnull⟩ =
        ⟨some fresh, v⟩ from getD_set_self _ _ _ _ hlen]
      simp
    · have hcell : (entries.set i ⟨some fresh, v⟩).getD idx ⟨none, .vnull⟩ =
          entries.getD idx ⟨none, .vnull⟩ :=
        getD_set_ne _ _ _ _ _ (fun he => hii he.symm)
      rw [tableFindStringAux] at hfs ⊢
      rw [findEntryAux] at hfe
      rw [hcell, List.length_set]
      split at hfe
      · rename_i hke
        split at hfe
        · simp at hfe
          omega
        · have := findEntryAux_tomb_fixed entries fresh habs _ _ _ _ hfe
          omega
      · rename_i k' hke
        split at hfe
        · simp at hfe
          omega
        · simp only [hke] at hfs ⊢
          split at hfs
          · simp at hfs
          · rename_i hcond
            rw [if_neg hcond]
            exact ih _ hfs hfe

theorem tableFindString_isSome (t : Table) (c : String) (h0 : Nat) (m : Nat)
    (hcap : t.entries.length = 2 ^ m)
    (hfr : ∃ j, j < 2 ^ m ∧ (entryAt t.entries j).isFresh = true) :
    (tableFindString t c h0).isSome := by
  rw [tableFindString]
  split_ifs
  · rfl
  · obtain ⟨j, hj, hfrj⟩ := hfr
    rw [hcap, Nat.and_pow_two_sub_one_eq_mod]
    have hidx : h0 % 2 ^ m < 2 ^ m := Nat.mod_lt _ (by positivity)
    obtain ⟨t0, ht0, hpos⟩ := exists_probe_offset (2 ^ m) (h0 % 2 ^ m) j
      (by positivity) hidx hj
    exact tableFindStringAux_isSome t.entries c h0 m hcap _ _ hidx
      ⟨t0, by omega, by rw [hpos]; exact hfrj⟩

/-- C8.  Under the interning invariants (power-of-two capacity, no
growth trigger, key identities below the allocation counter with their
cached FNV-1a hashes, empty table means all-fresh cells, a fresh cell,
and every stored key findable by its own bytes), `copyString` is
interning: a first call yields a string object whose bytes are the
request, an immediate second call with equal bytes yields the **same**
object and the same state, the resulting intern table maps equal byte
sequences to identical objects (equal bytes iff same object), and
`takeString` computes exactly as `copyString`. -/
theorem spec_c8_interning (st : InternState) (b : String) (m : Nat)
    (hcap : st.strings.entries.length = 2 ^ m)
    (hng : ¬ 4 * (st.strings.count + 1) > 3 * st.strings.capacity)
    (hids : ∀ e ∈ st.strings.entries, ∀ k, e.key = some k → k.id < st.nextId)
    (hhash : ∀ e ∈ st.strings.entries, ∀ k, e.key = some k →
      k.hash = fnv1a k.chars)
    (hzero : st.strings.count = 0 → ∀ e ∈ st.strings.entries, e.isFresh = true)
    (hfr : ∃ j, j < 2 ^ m ∧ (entryAt st.strings.entries j).isFresh = true)
    (hfind : ∀ e ∈ st.strings.entries, ∀ k, e.key = some k →
      tableFindString st.strings k.chars k.hash = some (some k)) :
    ∃ (s1 : StrObj) (st1 : InternState), copyString st b = some (s1, st1)
      ∧ copyString st1 b = some (s1, st1)
      ∧ s1.chars = b
      ∧ (∀ e1 ∈ st1.strings.entries, ∀ e2 ∈ st1.strings.entries, ∀ k1 k2,
          e1.key = some k1 → e2.key = some k2 → (k1.chars = k2.chars ↔ k1 = k2))
      ∧ takeString st b = copyString st b := by
  have hinj : ∀ e1 ∈ st.strings.entries, ∀ e2 ∈ st.strings.entries, ∀ k1 k2,
      e1.key = some k1 → e2.key = some k2 → k1.chars = k2.chars → k1 = k2 := by
    intro e1 he1 e2 he2 k1 k2 hk1 hk2 hch
    have h1 := hfind e1 he1 k1 hk1
    have h2 := hfind e2 he2 k2 hk2
    have hh : k1.hash = k2.hash := by
      rw [hhash e1 he1 k1 hk1, hhash e2 he2 k2 hk2, hch]
    rw [hch, hh] at h1
    rw [h1] at h2
    simp at h2
    exact h2
  rcases hlook : tableFindString st.strings b (fnv1a b) with _ | (_ | interned)
  · have := tableFindString_isSome st.strings b (fnv1a b) m hcap hfr
    rw [hlook] at this
    simp at this
  · -- not interned yet: a fresh string object is allocated and registered
    have habs : keyAbsent st.strings.entries ⟨st.nextId, fnv1a b, b⟩ := by
      intro e he hk
      have := hids e he _ hk
      simp at this
    have hpos : 0 < st.strings.entries.length := by rw [hcap]; positivity
    have hsome := findEntry_isSome st.strings.entries ⟨st.nextId, fnv1a b, b⟩ m
      hcap hfr
    obtain ⟨i, hi⟩ := Option.isSome_iff_exists.mp hsome
    have hilen : i < st.strings.entries.length := findEntry_lt _ _ _ hpos hi
    have hi' := hi
    rw [findEntry] at hi'
    have hshape := findEntryAux_key_shape st.strings.entries
      ⟨st.nextId, fnv1a b, b⟩ _ _ _ i (by simp) hi'
    have hknone : (entryAt st.strings.entries i).key = none := by
      rcases hshape with h | h
      · exact h
      · exact absurd h (habs _ (entryAt_mem_of_key_some _ _ _ h))
    have hset := tableSet_no_growth st.strings ⟨st.nextId, fnv1a b, b⟩ .vnull i
      hng hi
    rw [hknone] at hset
    simp only [Option.isNone_none, Bool.true_and, if_pos rfl, if_true] at hset
    have hcs : copyString st b = some (⟨st.nextId, fnv1a b, b⟩,
        ⟨st.nextId + 1,
          ⟨(if isNullV (entryAt st.strings.entries i).value = true
              then st.strings.count + 1 else st.strings.count) + 1,
            st.strings.entries.set i ⟨some ⟨st.nextId, fnv1a b, b⟩, .vnull⟩⟩⟩) := by
      simp only [copyString, hlook, Option.bind_eq_bind, Option.some_bind, hset]
    have hfs : tableFindStringAux st.strings.entries b (fnv1a b)
        st.strings.entries.length
        ((fnv1a b) &&& (st.strings.entries.length - 1)) = some none := by
      by_cases hc : st.strings.count = 0
      · have hall := hzero hc
        have hidx : (fnv1a b) &&& (st.strings.entries.length - 1) <
            st.strings.entries.length := by
          calc (fnv1a b) &&& (st.strings.entries.length - 1) ≤
              st.strings.entries.length - 1 := Nat.and_le_right
            _ < _ := by omega
        have hall' := tableFindStringAux_all_fresh st.strings.entries b (fnv1a b)
          (st.strings.entries.length - 1) _ hall hidx
        rw [show st.strings.entries.length - 1 + 1 = st.strings.entries.length
          from by omega] at hall'
        exact hall'
      · rw [tableFindString, if_neg hc] at hlook
        exact hlook
    have hF1 := tableFindStringAux_after_insert st.strings.entries
      ⟨st.nextId, fnv1a b, b⟩ .vnull i habs hknone hilen _ _ hfs hi'
    have hcntpos : (if isNullV (entryAt st.strings.entries i).value = true
        then st.strings.count + 1 else st.strings.count) + 1 ≠ 0 := by
      split_ifs <;> omega
    have hcs2 : copyString ⟨st.nextId + 1,
        ⟨(if isNullV (entryAt st.strings.entries i).value = true
            then st.strings.count + 1 else st.strings.count) + 1,
          st.strings.entries.set i ⟨some ⟨st.nextId, fnv1a b, b⟩, .vnull⟩⟩⟩ b =
        some (⟨st.nextId, fnv1a b, b⟩,
          ⟨st.nextId + 1,
            ⟨(if isNullV (entryAt st.strings.entries i).value = true
                then st.strings.count + 1 else st.strings.count) + 1,
              st.strings.entries.set i ⟨some ⟨st.nextId, fnv1a b, b⟩, .vnull⟩⟩⟩) := by
      have hlook2 : tableFindString
          ⟨(if isNullV (entryAt st.strings.entries i).value = true
              then st.strings.count + 1 else st.strings.count) + 1,
            st.strings.entries.set i ⟨some ⟨st.nextId, fnv1a b, b⟩, .vnull⟩⟩ b
          (fnv1a b) = some (some ⟨st.nextId, fnv1a b, b⟩) := by
        rw [tableFindString]
        simp only [List.length_set]
        rw [if_neg hcntpos]
        exact hF1
      simp only [copyString, hlook2, Option.bind_eq_bind, Option.some_bind]
    refine ⟨⟨st.nextId, fnv1a b, b⟩, _, hcs, hcs2, rfl, ?_, rfl⟩
    intro e1 he1 e2 he2 k1 k2 hk1 hk2
    simp only at he1 he2
    have hcases : ∀ e ∈ st.strings.entries.set i
        ⟨some ⟨st.nextId, fnv1a b, b⟩, .vnull⟩, ∀ kk, e.key = some kk →
        (kk = ⟨st.nextId, fnv1a b, b⟩ ∧ kk.chars = b) ∨
          (e ∈ st.strings.entries ∧ kk.id < st.nextId ∧
            (kk.chars = b → False)) := by
      intro e he kk hkk
      rcases List.mem_or_eq_of_mem_set he with hmem | hnew
      · refine Or.inr ⟨hmem, hids e hmem kk hkk, ?_⟩
        intro hch
        have h1 := hfind e hmem kk hkk
        rw [hhash e hmem kk hkk, hch] at h1
        rw [hlook] at h1
        simp at h1
      · subst hnew
        simp at hkk
        subst hkk
        exact Or.inl ⟨rfl, rfl⟩
    rcases hcases e1 he1 k1 hk1 with ⟨hk1f, hch1⟩ | ⟨hm1, hid1, hnb1⟩ <;>
      rcases hcases e2 he2 k2 hk2 with ⟨hk2f, hch2⟩ | ⟨hm2, hid2, hnb2⟩
    · subst hk1f; subst hk2f; simp
    · constructor
      · intro hch
        exact absurd (by rw [← hch, hch1]) hnb2
      · intro he
        rw [← he] at hid2
        rw [hk1f] at hid2
        simp at hid2
    · constructor
      · intro hch
        exact absurd (by rw [hch, hch2]) hnb1
      · intro he
        rw [he] at hid1
        rw [hk2f] at hid1
        simp at hid1
    · exact ⟨fun hch => hinj e1 hm1 e2 hm2 k1 k2 hk1 hk2 hch, fun he => by rw [he]⟩
  · -- already interned: both calls return the stored object unchanged
    have hcs : copyString st b = some (interned, st) := by
      simp only [copyString, hlook, Option.bind_eq_bind, Option.some_bind]
    have hchars : interned.chars = b := by
      rw [tableFindString] at hlook
      split_ifs at hlook with hc
      · simp at hlook
      · exact (tableFindStringAux_found _ _ _ _ _ _ hlook).1
    refine ⟨interned, st, hcs, hcs, hchars, ?_, rfl⟩
    intro e1 he1 e2 he2 k1 k2 hk1 hk2
    exact ⟨fun hch => hinj e1 he1 e2 he2 k1 k2 hk1 hk2 hch, fun he => by rw [he]⟩

/-- C8 witness: interning the two-byte string ab twice into an empty
eight-cell intern table yields the same object both times. -/
theorem spec_c8_interning_witness :
    ∃ (s1 : StrObj) (st1 : InternState),
      copyString ⟨0, ⟨0, List.replicate 8 ⟨none, Value.vnull⟩⟩⟩ "ab" =
          some (s1, st1)
        ∧ copyString st1 "ab" = some (s1, st1)
        ∧ s1.chars = "ab"
        ∧ (∀ e1 ∈ st1.strings.entries, ∀ e2 ∈ st1.strings.entries, ∀ k1 k2,
            e1.key = some k1 → e2.key = some k2 → (k1.chars = k2.chars ↔ k1 = k2))
        ∧ takeString ⟨0, ⟨0, List.replicate 8 ⟨none, Value.vnull⟩⟩⟩ "ab" =
            copyString ⟨0, ⟨0, List.replicate 8 ⟨none, Value.vnull⟩⟩⟩ "ab" := by
  refine spec_c8_interning ⟨0, ⟨0, List.replicate 8 ⟨none, Value.vnull⟩⟩⟩ "ab" 3
    (by norm_num) (by norm_num [Table.capacity]) ?_ ?_ ?_ ⟨0, by norm_num, rfl⟩ ?_
  · intro e he k hk
    simp [List.mem_replicate] at he
    rw [he] at hk
    simp at hk
  · intro e he k hk
    simp [List.mem_replicate] at he
    rw [he] at hk
    simp at hk
  · intro _ e he
    simp [List.mem_replicate] at he
    rw [he]
    rfl
  · intro e he k hk
    simp [List.mem_replicate] at he
    rw [he] at hk
    simp at hk

end Dragon

